import Mathlib

/-!
# Verification of the continuous-futures back-adjustment pipeline

Shallow embedding of the three scripts that build the back-adjusted
continuous ES futures series:

* `scripts/build-es-continuous.py` — 1-minute batch build: rollover
  detection from daily dominance, spread computation from overlapping
  bars, and in-memory back-adjustment.
* `scripts/build-es-1s-continuous.py` — streaming two-pass build for the
  1-second data: adjustment intervals from the persisted rollover log and
  a forward-scanning filter/adjust/write pass.
* `scripts/build-es-lt-continuous.py` — auxiliary-series adjuster that
  applies the same per-timestamp adjustment to external price levels.

Timestamps handled as ISO-8601 strings in the sources are embedded as
`List Char` with Python's lexicographic string comparison; timestamps
handled as epoch numbers are embedded as `ℤ`.  Floating-point prices are
embedded as `ℚ` (exact field arithmetic).
-/

/-- The character list of a string literal (Python strings are compared
as sequences of code points, which we model as `List Char`). -/
def str (s : String) : List Char := s.data

/-- Python's `<` on strings: strict lexicographic comparison by code point. -/
def strLtB : List Char → List Char → Bool
  | [], [] => false
  | [], _ :: _ => true
  | _ :: _, [] => false
  | a :: as, b :: bs =>
    if a.toNat < b.toNat then true
    else if b.toNat < a.toNat then false
    else strLtB as bs

/-- Python's `<=` on strings: lexicographic comparison by code point. -/
def strLeB : List Char → List Char → Bool
  | [], _ => true
  | _ :: _, [] => false
  | a :: as, b :: bs =>
    if a.toNat < b.toNat then true
    else if b.toNat < a.toNat then false
    else strLeB as bs

theorem strLeB_nil_left (t : List Char) : strLeB [] t = true := rfl

theorem strLeB_nil_right (s : List Char) : strLeB s [] = true ↔ s = [] := by
  cases s <;> simp [strLeB]

theorem char_eq_of_toNat_eq {a b : Char} (h : a.toNat = b.toNat) : a = b := by
  calc a = Char.ofNat a.toNat := (Char.ofNat_toNat a).symm
    _ = Char.ofNat b.toNat := by rw [h]
    _ = b := Char.ofNat_toNat b

theorem strLeB_refl (s : List Char) : strLeB s s = true := by
  induction s with
  | nil => rfl
  | cons a as ih => simp [strLeB, ih]

theorem not_strLtB_eq (a b : List Char) : (!strLtB a b) = strLeB b a := by
  induction a generalizing b with
  | nil => cases b <;> rfl
  | cons x xs ih =>
    cases b with
    | nil => rfl
    | cons y ys =>
      simp only [strLtB, strLeB]
      rcases Nat.lt_trichotomy x.toNat y.toNat with h | h | h
      · simp [h, Nat.lt_asymm h]
      · simp [h, Nat.lt_irrefl, ih ys]
      · simp [h, Nat.lt_asymm h]

theorem strLeB_cons (x y : Char) (xs ys : List Char) :
    strLeB (x :: xs) (y :: ys) = true ↔
      (x.toNat < y.toNat ∨ (x.toNat = y.toNat ∧ strLeB xs ys = true)) := by
  simp only [strLeB]
  rcases Nat.lt_trichotomy x.toNat y.toNat with h | h | h
  · simp [h]
  · simp [h, Nat.lt_irrefl]
  · simp [Nat.lt_asymm h, h, Nat.ne_of_gt h]

theorem strLtB_cons (x y : Char) (xs ys : List Char) :
    strLtB (x :: xs) (y :: ys) = true ↔
      (x.toNat < y.toNat ∨ (x.toNat = y.toNat ∧ strLtB xs ys = true)) := by
  simp only [strLtB]
  rcases Nat.lt_trichotomy x.toNat y.toNat with h | h | h
  · simp [h]
  · simp [h, Nat.lt_irrefl]
  · simp [Nat.lt_asymm h, h, Nat.ne_of_gt h]

theorem strLeB_trans {a b c : List Char} (h1 : strLeB a b = true)
    (h2 : strLeB b c = true) : strLeB a c = true := by
  induction a generalizing b c with
  | nil => exact rfl
  | cons x xs ih =>
    cases b with
    | nil => simp [strLeB] at h1
    | cons y ys =>
      cases c with
      | nil => simp [strLeB] at h2
      | cons z zs =>
        rw [strLeB_cons] at h1 h2 ⊢
        rcases h1 with h1 | ⟨h1, t1⟩ <;> rcases h2 with h2 | ⟨h2, t2⟩
        · exact Or.inl (by omega)
        · exact Or.inl (by omega)
        · exact Or.inl (by omega)
        · exact Or.inr ⟨by omega, ih t1 t2⟩

theorem strLtB_append (a b u v : List Char) (h : a.length = b.length) :
    strLtB (a ++ u) (b ++ v) = (strLtB a b || (a == b && strLtB u v)) := by
  induction a generalizing b with
  | nil =>
    cases b with
    | nil => simp [strLtB]
    | cons y ys => simp at h
  | cons x xs ih =>
    cases b with
    | nil => simp at h
    | cons y ys =>
      have hlen : xs.length = ys.length := by simpa using h
      simp only [List.cons_append, strLtB]
      rcases Nat.lt_trichotomy x.toNat y.toNat with hc | hc | hc
      · simp [hc]
      · have hxy : x = y := char_eq_of_toNat_eq hc
        subst hxy
        simp only [Nat.lt_irrefl, if_false, List.append_eq]
        rw [ih ys hlen]
        simp [List.cons_beq_cons]
      · have hne : ¬(x == y) = true := by
          simp only [beq_iff_eq]
          intro hxy
          subst hxy
          exact Nat.lt_irrefl _ hc
        simp [hc, Nat.lt_asymm hc, List.cons_beq_cons, hne]

theorem strLeB_append (a b u v : List Char) (h : a.length = b.length) :
    strLeB (a ++ u) (b ++ v) = (strLtB a b || (a == b && strLeB u v)) := by
  induction a generalizing b with
  | nil =>
    cases b with
    | nil => simp [strLtB, strLeB]
    | cons y ys => simp at h
  | cons x xs ih =>
    cases b with
    | nil => simp at h
    | cons y ys =>
      have hlen : xs.length = ys.length := by simpa using h
      simp only [List.cons_append, strLtB, strLeB]
      rcases Nat.lt_trichotomy x.toNat y.toNat with hc | hc | hc
      · simp [hc]
      · have hxy : x = y := char_eq_of_toNat_eq hc
        subst hxy
        simp only [Nat.lt_irrefl, if_false, List.append_eq]
        rw [ih ys hlen]
        simp [List.cons_beq_cons]
      · have hne : ¬(x == y) = true := by
          simp only [beq_iff_eq]
          intro hxy
          subst hxy
          exact Nat.lt_irrefl _ hc
        simp [hc, Nat.lt_asymm hc, List.cons_beq_cons, hne]

theorem strLeB_eq_lt_or_eq (a b : List Char) :
    strLeB a b = (strLtB a b || a == b) := by
  induction a generalizing b with
  | nil => cases b <;> simp [strLtB, strLeB]
  | cons x xs ih =>
    cases b with
    | nil => simp [strLtB, strLeB]
    | cons y ys =>
      simp only [strLtB, strLeB]
      rcases Nat.lt_trichotomy x.toNat y.toNat with hc | hc | hc
      · simp [hc]
      · have hxy : x = y := char_eq_of_toNat_eq hc
        subst hxy
        simp only [Nat.lt_irrefl, if_false]
        rw [ih ys]
        simp [List.cons_beq_cons]
      · have hne : ¬(x == y) = true := by
          simp only [beq_iff_eq]
          intro hxy
          subst hxy
          exact Nat.lt_irrefl _ hc
        simp [hc, Nat.lt_asymm hc, List.cons_beq_cons, hne]

theorem strLeB_append_same {a b : List Char} (u : List Char)
    (h : a.length = b.length) (hle : strLeB a b = true) :
    strLeB (a ++ u) (b ++ u) = true := by
  rw [strLeB_append a b u u h]
  rw [strLeB_eq_lt_or_eq] at hle
  rcases Bool.or_eq_true_iff.mp hle with hlt | heq
  · simp [hlt]
  · simp [heq, strLeB_refl]

/-!
## `build-es-1s-continuous.py` — streaming two-pass continuous build

Rollover-log records and the back-adjustment intervals
(`build_adjustment_intervals`, lines 67-105), the date filter and hour
bucketing shared by both passes, and the pass-2 filter/adjust/write loop
(`pass2_filter_adjust_write`, lines 193-301).
-/

/-- One record of the persisted rollover log (`load_rollover_log`):
`date` is an ISO `YYYY-MM-DD` string, `spread` the signed price offset
`to_contract_price - from_contract_price`. -/
structure Rollover where
  date : List Char
  from_symbol : List Char
  to_symbol : List Char
  spread : ℚ
deriving DecidableEq

/-- `sum of spreads` of a rollover list (the Python suffix sums
`suffix_sum[i]` are `spreadsSum` of the corresponding `List.drop`). -/
def spreadsSum (rollovers : List Rollover) : ℚ :=
  (rollovers.map (fun r => r.spread)).sum

/-- The fixed time-of-day suffix appended to a rollover date to form the
interval boundary timestamp (`rollovers[i]["date"] + "T00:00:00.000000000Z"`). -/
def rollSuffix : List Char := str "T00:00:00.000000000Z"

/-- Interval entries for the rollovers themselves: entry `i` is
`(date_i ++ "T00:00:00.000000000Z", -suffix_sum[i+1])`, i.e. the interval
starting at rollover `i` is adjusted by minus the sum of all *later*
spreads. -/
def tailIntervals : List Rollover → List (List Char × ℚ)
  | [] => []
  | r :: rest => (r.date ++ rollSuffix, -spreadsSum rest) :: tailIntervals rest

/-- `build_adjustment_intervals` (lines 67-105): an empty rollover log
yields the single all-time interval with adjustment 0; otherwise the
unbounded-past interval `("", -sum of all spreads)` followed by one
interval per rollover with the suffix-sum adjustment. -/
def build_adjustment_intervals (rollovers : List Rollover) : List (List Char × ℚ) :=
  match rollovers with
  | [] => [(([] : List Char), (0 : ℚ))]
  | _ :: _ => ([], -spreadsSum rollovers) :: tailIntervals rollovers

/-- `hour_key` (lines 39-45): the `YYYY-MM-DDTHH` bucket of a timestamp. -/
def hour_key (ts : List Char) : List Char := ts.take 13

/-- Python's `"-" in symbol`: calendar-spread detection. -/
def hasDash (symbol : List Char) : Bool := symbol.contains '-'

/-- The date filter applied in both passes (lines 156-161 / 255-261):
skip when `ts < start_date` or `ts > end_date` (plain string comparison);
`none` means the bound was not supplied. -/
def passesDateFilter (start_date end_date : Option (List Char)) (ts : List Char) : Bool :=
  (match start_date with
   | some s => !strLtB ts s
   | none => true) &&
  (match end_date with
   | some e => !strLtB e ts
   | none => true)

/-- `main` (line 372): `start_date = args.start + "T"`. -/
def mainStartBound (start : List Char) : List Char := start ++ ['T']

/-- `main` (line 373): `end_date = args.end + "T99"` (`"T99"` sorts after
any valid time-of-day). -/
def mainEndBound (stop : List Char) : List Char := stop ++ ['T', '9', '9']

/-- A parsed source bar row: ISO timestamp string, OHLC prices, the raw
volume field (pass 2 copies it through without parsing), and the contract
symbol. -/
structure Row where
  ts : List Char
  open_ : ℚ
  high : ℚ
  low : ℚ
  close : ℚ
  volume : List Char
  symbol : List Char
deriving DecidableEq

/-- An output row of the continuous series (lines 282-291): adjusted OHLC,
untouched timestamp and volume, the fixed synthetic symbol, and the
original contract code. -/
structure OutRow where
  ts : List Char
  open_ : ℚ
  high : ℚ
  low : ℚ
  close : ℚ
  volume : List Char
  symbol : List Char
  contract : List Char
deriving DecidableEq

/-- The pass-2 `while` loop advance (lines 271-273): starting just past
the current interval, count how many consecutive following boundaries
satisfy `ts >= boundary`. -/
def advCount (ts : List Char) : List (List Char × ℚ) → ℕ
  | [] => 0
  | (b, _) :: rest => if strLeB b ts then advCount ts rest + 1 else 0

/-- The new interval index after the pass-2 `while` loop runs at
timestamp `ts` from index `idx`. -/
def advanceIdx (intervals : List (List Char × ℚ)) (ts : List Char) (idx : ℕ) : ℕ :=
  idx + advCount ts (intervals.drop (idx + 1))

/-- `intervals[idx][1]`, the adjustment of interval `idx`. -/
def intervalAdj (intervals : List (List Char × ℚ)) (idx : ℕ) : ℚ :=
  (intervals.getD idx ([], 0)).2

/-- The pass-2 retention test (lines 246-267): not a calendar spread, in
the date range, and equal to the hour bucket's primary contract. -/
def keepRow (primary : List Char → Option (List Char))
    (start_date end_date : Option (List Char)) (r : Row) : Bool :=
  !hasDash r.symbol && passesDateFilter start_date end_date r.ts &&
    (primary (hour_key r.ts) == some r.symbol)

/-- Writing one retained row (lines 276-291): add the interval adjustment
to all four prices, copy timestamp and volume, emit the synthetic symbol
and the original contract. -/
def writeRow (intervals : List (List Char × ℚ)) (idx : ℕ) (r : Row) : OutRow :=
  { ts := r.ts
    open_ := r.open_ + intervalAdj intervals idx
    high := r.high + intervalAdj intervals idx
    low := r.low + intervalAdj intervals idx
    close := r.close + intervalAdj intervals idx
    volume := r.volume
    symbol := str "ES_continuous"
    contract := r.symbol }

/-- The pass-2 row loop (lines 234-292) over already-parsed rows,
carrying the forward-only interval index. -/
def pass2Go (primary : List Char → Option (List Char))
    (start_date end_date : Option (List Char))
    (intervals : List (List Char × ℚ)) : List Row → ℕ → List OutRow
  | [], _ => []
  | r :: rest, idx =>
    if keepRow primary start_date end_date r then
      writeRow intervals (advanceIdx intervals r.ts idx) r ::
        pass2Go primary start_date end_date intervals rest
          (advanceIdx intervals r.ts idx)
    else
      pass2Go primary start_date end_date intervals rest idx

/-- `pass2_filter_adjust_write` (lines 193-301): stream the parsed rows,
keep only primary-contract rows in range, back-adjust and write, with the
interval index starting at 0. -/
def pass2_filter_adjust_write (primary : List Char → Option (List Char))
    (start_date end_date : Option (List Char))
    (intervals : List (List Char × ℚ)) (rows : List Row) : List OutRow :=
  pass2Go primary start_date end_date intervals rows 0

/-- The canonical (stateless) interval adjustment in force at timestamp
`ts`: what the forward scan computes for `ts` when started from index 0. -/
def adjAt (intervals : List (List Char × ℚ)) (ts : List Char) : ℚ :=
  intervalAdj intervals (advCount ts (intervals.drop 1))

/-- The stateless form of one written row. -/
def adjustRow (intervals : List (List Char × ℚ)) (r : Row) : OutRow :=
  writeRow intervals (advCount r.ts (intervals.drop 1)) r

/-- Input rows sorted by timestamp (the source file is globally
timestamp-sorted). -/
def SortedRows (rows : List Row) : Prop :=
  rows.Pairwise (fun a b => strLeB a.ts b.ts = true)

/-!
### Structural lemmas about the adjustment intervals and the forward scan
-/

theorem rollSuffix_ne_nil : rollSuffix ≠ [] := by decide

theorem tailIntervals_length (rs : List Rollover) :
    (tailIntervals rs).length = rs.length := by
  induction rs with
  | nil => rfl
  | cons r rest ih => simp [tailIntervals, ih]

theorem tailIntervals_mem {rs : List Rollover} {p : List Char × ℚ}
    (hp : p ∈ tailIntervals rs) : ∃ r ∈ rs, p.1 = r.date ++ rollSuffix := by
  induction rs with
  | nil => simp [tailIntervals] at hp
  | cons r rest ih =>
    rcases (List.mem_cons).mp hp with h | h
    · exact ⟨r, List.mem_cons_self r rest, by rw [h]⟩
    · obtain ⟨r2, hr2, he⟩ := ih h
      exact ⟨r2, List.mem_cons_of_mem _ hr2, he⟩

theorem tailIntervals_fst_ne_nil {rs : List Rollover} {p : List Char × ℚ}
    (hp : p ∈ tailIntervals rs) : p.1 ≠ [] := by
  obtain ⟨r, _, he⟩ := tailIntervals_mem hp
  rw [he]
  simp [rollSuffix_ne_nil]

theorem build_drop_one (rs : List Rollover) :
    (build_adjustment_intervals rs).drop 1 = tailIntervals rs := by
  cases rs <;> rfl

theorem build_fst_ne_nil {rs : List Rollover} {p : List Char × ℚ}
    (hp : p ∈ (build_adjustment_intervals rs).drop 1) : p.1 ≠ [] := by
  rw [build_drop_one] at hp
  exact tailIntervals_fst_ne_nil hp

theorem tailIntervals_getD (rs : List Rollover) (j : ℕ) (hj : j < rs.length) :
    (tailIntervals rs).getD j ([], 0) =
      ((rs.get ⟨j, hj⟩).date ++ rollSuffix, -spreadsSum (rs.drop (j + 1))) := by
  induction rs generalizing j with
  | nil => simp at hj
  | cons r rest ih =>
    cases j with
    | zero => simp [tailIntervals]
    | succ j2 =>
      have hj2 : j2 < rest.length := by simpa using hj
      simp only [tailIntervals, List.getD_cons_succ, List.get_cons_succ, List.drop_succ_cons]
      exact ih j2 hj2

theorem tailIntervals_getLast_snd {rs : List Rollover} (h : rs ≠ []) :
    ((tailIntervals rs).getLast?).map Prod.snd = some 0 := by
  induction rs with
  | nil => exact absurd rfl h
  | cons r rest ih =>
    cases rest with
    | nil => simp [tailIntervals, spreadsSum]
    | cons r2 rest2 =>
      have h1 : tailIntervals (r :: r2 :: rest2) =
          (r.date ++ rollSuffix, -spreadsSum (r2 :: rest2)) :: tailIntervals (r2 :: rest2) := rfl
      have h2 : tailIntervals (r2 :: rest2) =
          (r2.date ++ rollSuffix, -spreadsSum rest2) :: tailIntervals rest2 := rfl
      rw [h1, h2, List.getLast?_cons_cons, ← h2]
      exact ih (by simp)

theorem intervalAdj_build (rs : List Rollover) (k : ℕ) (hk : k ≤ rs.length) :
    intervalAdj (build_adjustment_intervals rs) k = -spreadsSum (rs.drop k) := by
  cases k with
  | zero =>
    cases rs with
    | nil => simp [intervalAdj, build_adjustment_intervals, spreadsSum]
    | cons r rest => simp [intervalAdj, build_adjustment_intervals]
  | succ j =>
    cases rs with
    | nil => simp at hk
    | cons r rest =>
      have hj : j < (r :: rest).length := hk
      simp only [intervalAdj, build_adjustment_intervals, List.getD_cons_succ]
      rw [show ((r :: rest).drop (j + 1)) = ((r :: rest).drop (j + 1)) from rfl]
      have := tailIntervals_getD (r :: rest) j hj
      rw [this]

theorem advCount_le_length (ts : List Char) (M : List (List Char × ℚ)) :
    advCount ts M ≤ M.length := by
  induction M with
  | nil => simp [advCount]
  | cons p rest ih =>
    obtain ⟨b, q⟩ := p
    by_cases hb : strLeB b ts = true
    · simpa [advCount, hb] using ih
    · simp [advCount, hb]

theorem advCount_nil_ts {M : List (List Char × ℚ)}
    (hne : ∀ p ∈ M, p.1 ≠ []) : advCount [] M = 0 := by
  cases M with
  | nil => rfl
  | cons p rest =>
    obtain ⟨b, q⟩ := p
    have hb : b ≠ [] := hne (b, q) (List.mem_cons_self _ _)
    have : strLeB b [] ≠ true := fun hc => hb ((strLeB_nil_right b).mp hc)
    simp [advCount, this]

theorem advCount_compose (M : List (List Char × ℚ)) {t0 ts : List Char}
    (h : strLeB t0 ts = true) :
    advCount ts M = advCount t0 M + advCount ts (M.drop (advCount t0 M)) := by
  induction M with
  | nil => simp [advCount]
  | cons p rest ih =>
    obtain ⟨b, q⟩ := p
    by_cases hb : strLeB b t0 = true
    · have hb2 : strLeB b ts = true := strLeB_trans hb h
      simp only [advCount, hb, hb2, if_true, List.drop_succ_cons]
      omega
    · simp [advCount, hb]

theorem advanceIdx_canon (intervals : List (List Char × ℚ)) {t0 ts : List Char}
    (h : strLeB t0 ts = true) :
    advanceIdx intervals ts (advCount t0 (intervals.drop 1)) =
      advCount ts (intervals.drop 1) := by
  unfold advanceIdx
  have hd : intervals.drop (advCount t0 (intervals.drop 1) + 1) =
      (intervals.drop 1).drop (advCount t0 (intervals.drop 1)) := by
    rw [List.drop_drop, Nat.add_comm]
  rw [hd]
  exact (advCount_compose _ h).symm

theorem advCount_mono (M : List (List Char × ℚ)) {t t' : List Char}
    (h : strLeB t t' = true) : advCount t M ≤ advCount t' M := by
  induction M with
  | nil => simp [advCount]
  | cons p rest ih =>
    obtain ⟨b, q⟩ := p
    by_cases hb : strLeB b t = true
    · have hb2 : strLeB b t' = true := strLeB_trans hb h
      simpa [advCount, hb, hb2] using ih
    · simp [advCount, hb]

theorem advCount_lt_exists {M : List (List Char × ℚ)} {t t' : List Char}
    (h : advCount t M < advCount t' M) :
    ∃ p ∈ M, strLeB p.1 t' = true ∧ strLeB p.1 t = false := by
  induction M with
  | nil => simp [advCount] at h
  | cons p rest ih =>
    obtain ⟨b, q⟩ := p
    by_cases hb : strLeB b t = true
    · by_cases hb2 : strLeB b t' = true
      · simp only [advCount, hb, hb2, if_true] at h
        have : advCount t rest < advCount t' rest := by omega
        obtain ⟨p2, hp2, hc⟩ := ih this
        exact ⟨p2, List.mem_cons_of_mem _ hp2, hc⟩
      · simp [advCount, hb, hb2] at h
    · by_cases hb2 : strLeB b t' = true
      · exact ⟨(b, q), List.mem_cons_self _ _, hb2, by simpa using hb⟩
      · simp [advCount, hb, hb2] at h

theorem advCount_eq_of_no_boundary {M : List (List Char × ℚ)} {t t' : List Char}
    (hle : strLeB t t' = true)
    (hnb : ∀ p ∈ M, strLeB p.1 t' = true → strLeB p.1 t = true) :
    advCount t M = advCount t' M := by
  refine Nat.le_antisymm (advCount_mono M hle) ?_
  by_contra hlt
  obtain ⟨p, hp, h1, h2⟩ := advCount_lt_exists (Nat.lt_of_not_le hlt)
  rw [hnb p hp h1] at h2
  simp at h2

theorem advCount_getElem_lt {M : List (List Char × ℚ)} {ts : List Char} {j : ℕ}
    (hjl : j < M.length) (hj : j < advCount ts M) :
    strLeB (M[j]).1 ts = true := by
  induction M generalizing j with
  | nil => simp at hjl
  | cons p rest ih =>
    obtain ⟨b, q⟩ := p
    by_cases hb : strLeB b ts = true
    · cases j with
      | zero => simpa using hb
      | succ j2 =>
        have hj2 : j2 < advCount ts rest := by
          simp only [advCount, hb, if_true] at hj
          omega
        have hjl2 : j2 < rest.length := by simpa using hjl
        simpa using ih hjl2 hj2
    · simp [advCount, hb] at hj

theorem advCount_getElem_ge {M : List (List Char × ℚ)} {ts : List Char} {j : ℕ}
    (hsorted : M.Pairwise (fun p q => strLeB p.1 q.1 = true))
    (hjl : j < M.length) (hj : advCount ts M ≤ j) :
    strLeB (M[j]).1 ts = false := by
  induction M generalizing j with
  | nil => simp at hjl
  | cons p rest ih =>
    obtain ⟨b, q⟩ := p
    obtain ⟨hhead, htail⟩ := List.pairwise_cons.mp hsorted
    by_cases hb : strLeB b ts = true
    · cases j with
      | zero => simp [advCount, hb] at hj
      | succ j2 =>
        have hj2 : advCount ts rest ≤ j2 := by
          simp only [advCount, hb, if_true] at hj
          omega
        have hjl2 : j2 < rest.length := by simpa using hjl
        simpa using ih htail hjl2 hj2
    · cases j with
      | zero => simpa using (Bool.not_eq_true _).mp hb
      | succ j2 =>
        have hjl2 : j2 < rest.length := by simpa using hjl
        have hmem : rest[j2] ∈ rest := List.getElem_mem hjl2
        have hble : strLeB b (rest[j2]).1 = true := hhead _ hmem
        cases hx : strLeB ((rest[j2]).1) ts with
        | false => simpa using hx
        | true => exact absurd (strLeB_trans hble hx) hb

/-!
### Pass 2 as a pure map over the filtered rows

With time-sorted input the forward-only interval scan computes, for every
retained row, the same interval index a fresh scan from 0 would compute,
so the stateful loop equals `map ∘ filter`.
-/

theorem pass2Go_eq_map (primary : List Char → Option (List Char))
    (start_date end_date : Option (List Char))
    (intervals : List (List Char × ℚ)) (rows : List Row) (t0 : List Char)
    (h0 : ∀ r ∈ rows, strLeB t0 r.ts = true) (hs : SortedRows rows) :
    pass2Go primary start_date end_date intervals rows
        (advCount t0 (intervals.drop 1)) =
      (rows.filter (keepRow primary start_date end_date)).map (adjustRow intervals) := by
  induction rows generalizing t0 with
  | nil => simp [pass2Go]
  | cons r rest ih =>
    have hts : strLeB t0 r.ts = true := h0 r (List.mem_cons_self _ _)
    obtain ⟨hhead, htail⟩ := List.pairwise_cons.mp hs
    by_cases hk : keepRow primary start_date end_date r = true
    · simp only [pass2Go, hk, if_true, List.filter_cons, List.map_cons]
      rw [advanceIdx_canon intervals hts]
      exact congrArg _ (ih r.ts hhead htail)
    · simp only [pass2Go, hk, if_false, List.filter_cons, Bool.false_eq_true]
      rw [ih t0 (fun x hx => h0 x (List.mem_cons_of_mem _ hx)) htail]

theorem pass2_eq_map_filter (rollovers : List Rollover)
    (primary : List Char → Option (List Char))
    (start_date end_date : Option (List Char)) (rows : List Row)
    (hs : SortedRows rows) :
    pass2_filter_adjust_write primary start_date end_date
        (build_adjustment_intervals rollovers) rows =
      (rows.filter (keepRow primary start_date end_date)).map
        (adjustRow (build_adjustment_intervals rollovers)) := by
  have h0 : advCount [] ((build_adjustment_intervals rollovers).drop 1) = 0 :=
    advCount_nil_ts (fun p hp => build_fst_ne_nil hp)
  have := pass2Go_eq_map primary start_date end_date
    (build_adjustment_intervals rollovers) rows []
    (fun r _ => strLeB_nil_left r.ts) hs
  rw [h0] at this
  exact this

theorem pass2Go_mem (primary : List Char → Option (List Char))
    (start_date end_date : Option (List Char))
    (intervals : List (List Char × ℚ)) (rows : List Row) (idx : ℕ)
    {o : OutRow} (ho : o ∈ pass2Go primary start_date end_date intervals rows idx) :
    ∃ r ∈ rows, keepRow primary start_date end_date r = true ∧
      ∃ k, o = writeRow intervals k r := by
  induction rows generalizing idx with
  | nil => simp [pass2Go] at ho
  | cons r rest ih =>
    by_cases hk : keepRow primary start_date end_date r = true
    · simp only [pass2Go, hk, if_true, List.mem_cons] at ho
      rcases ho with ho | ho
      · exact ⟨r, List.mem_cons_self _ _, hk, advanceIdx intervals r.ts idx, ho⟩
      · obtain ⟨r2, hr2, hk2, k, he⟩ := ih _ ho
        exact ⟨r2, List.mem_cons_of_mem _ hr2, hk2, k, he⟩
    · simp only [pass2Go, hk, if_false, Bool.false_eq_true] at ho
      obtain ⟨r2, hr2, hk2, k, he⟩ := ih _ ho
      exact ⟨r2, List.mem_cons_of_mem _ hr2, hk2, k, he⟩

/-!
### Boundary order of the built intervals
-/

theorem tailIntervals_pairwise (rs : List Rollover)
    (hlen : ∀ r ∈ rs, r.date.length = 10)
    (hsorted : rs.Pairwise (fun a b => strLeB a.date b.date = true)) :
    (tailIntervals rs).Pairwise (fun p q => strLeB p.1 q.1 = true) := by
  induction rs with
  | nil => simp [tailIntervals]
  | cons r rest ih =>
    obtain ⟨hhead, htail⟩ := List.pairwise_cons.mp hsorted
    refine List.pairwise_cons.mpr ⟨?_, ?_⟩
    · intro q hq
      obtain ⟨r2, hr2, he⟩ := tailIntervals_mem hq
      rw [he]
      exact strLeB_append_same rollSuffix
        (by rw [hlen r (List.mem_cons_self _ _), hlen r2 (List.mem_cons_of_mem _ hr2)])
        (hhead r2 hr2)
    · exact ih (fun x hx => hlen x (List.mem_cons_of_mem _ hx)) htail

theorem build_pairwise (rs : List Rollover)
    (hlen : ∀ r ∈ rs, r.date.length = 10)
    (hsorted : rs.Pairwise (fun a b => strLeB a.date b.date = true)) :
    (build_adjustment_intervals rs).Pairwise (fun p q => strLeB p.1 q.1 = true) := by
  cases rs with
  | nil => simp [build_adjustment_intervals]
  | cons r rest =>
    refine List.pairwise_cons.mpr ⟨?_, ?_⟩
    · intro q _
      exact strLeB_nil_left q.1
    · exact tailIntervals_pairwise (r :: rest) hlen hsorted

/-!
## `build-es-lt-continuous.py` — auxiliary-series adjuster

`compute_adjustment` (lines 50-62) over epoch-millisecond timestamps, and
the per-record level rewrite of `main` (lines 84-101), which rounds each
adjusted level to 2 decimal places with Python's `round` (half-to-even).
-/

/-- A rollover as used by the auxiliary adjuster: the switch instant in
epoch milliseconds (midnight UTC of the log's date) and the spread. -/
structure RolloverMs where
  switch_ms : ℤ
  spread : ℚ
deriving DecidableEq

/-- `compute_adjustment` (lines 50-62): starting from 0, subtract the
spread of every rollover that happens strictly after the timestamp. -/
def compute_adjustment (timestamp_ms : ℤ) (rollovers : List RolloverMs) : ℚ :=
  rollovers.foldl
    (fun adjustment r =>
      if timestamp_ms < r.switch_ms then adjustment - r.spread else adjustment)
    0

/-- Round half to even to the nearest integer (the behaviour of Python's
`round` on exactly representable values). -/
def roundHalfEven (q : ℚ) : ℤ :=
  let f := ⌊q⌋
  if q - f < 1 / 2 then f
  else if 1 / 2 < q - f then f + 1
  else if f % 2 = 0 then f else f + 1

/-- Python's `round(x, 2)`: round to 2 decimal places, half to even. -/
def round2 (q : ℚ) : ℚ := (roundHalfEven (100 * q) : ℚ) / 100

/-- The per-record level rewrite of `main` (lines 84-101): compute the
adjustment for the record's `unix_timestamp` once, then replace each
level by `round(raw + adj, 2)`. -/
def adjust_levels (rollovers : List RolloverMs) (ts_ms : ℤ) (levels : List ℚ) : List ℚ :=
  levels.map (fun raw => round2 (raw + compute_adjustment ts_ms rollovers))

/-- Modelled from the spec sentence "sum of -spread for every rollover at
or after that timestamp": the *claimed* cumulative adjustment, which
includes a rollover whose switch instant equals the timestamp. -/
def spec_adjustment_at_or_after (timestamp_ms : ℤ) (rollovers : List RolloverMs) : ℚ :=
  ((rollovers.filter (fun r => decide (timestamp_ms ≤ r.switch_ms))).map
    (fun r => -r.spread)).sum

/-- The strictly-after cumulative sum that `compute_adjustment` computes. -/
def strict_adjustment_after (timestamp_ms : ℤ) (rollovers : List RolloverMs) : ℚ :=
  ((rollovers.filter (fun r => decide (timestamp_ms < r.switch_ms))).map
    (fun r => -r.spread)).sum

theorem compute_adjustment_foldl (timestamp_ms : ℤ) (rollovers : List RolloverMs)
    (acc : ℚ) :
    rollovers.foldl
      (fun adjustment r =>
        if timestamp_ms < r.switch_ms then adjustment - r.spread else adjustment)
      acc = acc + strict_adjustment_after timestamp_ms rollovers := by
  induction rollovers generalizing acc with
  | nil => simp [strict_adjustment_after]
  | cons r rest ih =>
    by_cases hr : timestamp_ms < r.switch_ms
    · simp only [List.foldl_cons, if_pos hr]
      rw [ih]
      simp only [strict_adjustment_after, List.filter_cons, decide_eq_true hr]
      simp [List.map_cons, List.sum_cons]
      ring
    · simp only [List.foldl_cons, if_neg hr]
      rw [ih]
      simp only [strict_adjustment_after, List.filter_cons]
      simp [decide_eq_false hr]

theorem compute_adjustment_eq (timestamp_ms : ℤ) (rollovers : List RolloverMs) :
    compute_adjustment timestamp_ms rollovers =
      strict_adjustment_after timestamp_ms rollovers := by
  unfold compute_adjustment
  rw [compute_adjustment_foldl]
  ring

theorem strict_adjustment_all {timestamp_ms : ℤ} {rollovers : List RolloverMs}
    (h : ∀ r ∈ rollovers, timestamp_ms < r.switch_ms) :
    strict_adjustment_after timestamp_ms rollovers =
      -((rollovers.map (fun r => r.spread)).sum) := by
  induction rollovers with
  | nil => simp [strict_adjustment_after]
  | cons r rest ih =>
    have hrd : decide (timestamp_ms < r.switch_ms) = true :=
      decide_eq_true (h r (List.mem_cons_self _ _))
    have ih2 := ih (fun x hx => h x (List.mem_cons_of_mem _ hx))
    simp only [strict_adjustment_after] at ih2
    simp only [strict_adjustment_after, List.filter_cons, hrd, eq_self_iff_true,
      if_true, List.map_cons, List.sum_cons]
    rw [ih2]
    simp [List.sum_cons]
    ring

/-!
### Alignment of the auxiliary adjuster with the interval scan
-/

theorem tailIntervals_fst_mem {rs : List Rollover} {r : Rollover} (hr : r ∈ rs) :
    (r.date ++ rollSuffix) ∈ (tailIntervals rs).map Prod.fst := by
  induction rs with
  | nil => simp at hr
  | cons r2 rest ih =>
    rcases (List.mem_cons).mp hr with h | h
    · subst h
      simp [tailIntervals]
    · simp only [tailIntervals, List.map_cons, List.mem_cons]
      exact Or.inr (ih h)

theorem strict_eq_drop_advCount (rs : List Rollover) (msOf : Rollover → ℤ)
    (t : ℤ) (ts : List Char)
    (hsorted : (tailIntervals rs).Pairwise (fun p q => strLeB p.1 q.1 = true))
    (hc : ∀ r ∈ rs, (t < msOf r ↔ strLeB (r.date ++ rollSuffix) ts = false)) :
    strict_adjustment_after t (rs.map (fun r => RolloverMs.mk (msOf r) r.spread)) =
      -spreadsSum (rs.drop (advCount ts (tailIntervals rs))) := by
  induction rs with
  | nil => simp [strict_adjustment_after, spreadsSum, advCount, tailIntervals]
  | cons r rest ih =>
    obtain ⟨hhead, htail⟩ := List.pairwise_cons.mp
      (show ((r.date ++ rollSuffix, -spreadsSum rest) :: tailIntervals rest).Pairwise
          (fun p q => strLeB p.1 q.1 = true) from hsorted)
    by_cases hb : strLeB (r.date ++ rollSuffix) ts = true
    · have hnr : ¬(t < msOf r) := fun hlt => by
        rw [(hc r (List.mem_cons_self _ _)).mp hlt] at hb
        simp at hb
      have hadv : advCount ts (tailIntervals (r :: rest)) =
          advCount ts (tailIntervals rest) + 1 := by
        simp [tailIntervals, advCount, hb]
      rw [hadv]
      simp only [List.map_cons, strict_adjustment_after, List.filter_cons,
        decide_eq_false hnr, Bool.false_eq_true, if_false, List.drop_succ_cons]
      exact ih htail (fun x hx => hc x (List.mem_cons_of_mem _ hx))
    · have hr : t < msOf r :=
        (hc r (List.mem_cons_self _ _)).mpr (by simpa using hb)
      have hadv : advCount ts (tailIntervals (r :: rest)) = 0 := by
        simp [tailIntervals, advCount, hb]
      rw [hadv]
      have hball : ∀ x ∈ rest.map (fun r2 => RolloverMs.mk (msOf r2) r2.spread),
          t < x.switch_ms := by
        intro x hx
        obtain ⟨r2, hr2, he⟩ := List.mem_map.mp hx
        subst he
        refine (hc r2 (List.mem_cons_of_mem _ hr2)).mpr ?_
        have hmem : (r2.date ++ rollSuffix) ∈ (tailIntervals rest).map Prod.fst :=
          tailIntervals_fst_mem hr2
        obtain ⟨p, hp, hpe⟩ := List.mem_map.mp hmem
        have hble : strLeB (r.date ++ rollSuffix) p.1 = true := hhead p hp
        cases hx2 : strLeB p.1 ts with
        | false => rw [hpe] at hx2; exact hx2
        | true => exact absurd (strLeB_trans hble hx2) (by simpa using hb)
      have hrd : decide (t < msOf r) = true := decide_eq_true hr
      simp only [List.map_cons, strict_adjustment_after, List.filter_cons, hrd,
        eq_self_iff_true, if_true, List.map_cons, List.sum_cons]
      have hall := strict_adjustment_all hball
      simp only [strict_adjustment_after] at hall
      rw [hall]
      have hcomp : (List.map (fun x : RolloverMs => x.spread)
          (List.map (fun r2 : Rollover => RolloverMs.mk (msOf r2) r2.spread) rest)) =
          rest.map (fun r2 => r2.spread) := by
        rw [List.map_map]
        exact List.map_congr_left (fun a _ => rfl)
      rw [hcomp]
      simp only [List.drop_zero, spreadsSum, List.map_cons, List.sum_cons]
      ring

theorem compute_adjustment_eq_adjAt (rs : List Rollover) (msOf : Rollover → ℤ)
    (t : ℤ) (ts : List Char)
    (hsorted : (tailIntervals rs).Pairwise (fun p q => strLeB p.1 q.1 = true))
    (hc : ∀ r ∈ rs, (t < msOf r ↔ strLeB (r.date ++ rollSuffix) ts = false)) :
    compute_adjustment t (rs.map (fun r => RolloverMs.mk (msOf r) r.spread)) =
      adjAt (build_adjustment_intervals rs) ts := by
  rw [compute_adjustment_eq, strict_eq_drop_advCount rs msOf t ts hsorted hc]
  unfold adjAt
  rw [build_drop_one]
  have hk : advCount ts (tailIntervals rs) ≤ rs.length := by
    have := advCount_le_length ts (tailIntervals rs)
    rwa [tailIntervals_length] at this
  rw [intervalAdj_build rs _ hk]

/-!
## `build-es-continuous.py` — 1-minute batch build

The rollover-detection walk over the daily dominance sequence
(`detect_true_rollovers`, lines 79-96), the spread computation from
overlapping bars (`compute_rollover_spreads`, lines 106-148), and the
reverse-order back-adjustment loop of `build_continuous_series`
(lines 229-243).  Epoch timestamps are embedded as `ℤ` (the pandas
`Timestamp` order).
-/

/-- A `DominanceRecord`: one row of `daily_primary` — the bucket (day)
identifier and the contract with the highest volume that day. -/
structure DomRec where
  date : ℤ
  primary : List Char
deriving DecidableEq

/-- A detected rollover event (spread fields not yet attached). -/
structure RollEvent where
  date : ℤ
  from_symbol : List Char
  to_symbol : List Char
deriving DecidableEq

/-- The detection walk of `detect_true_rollovers` (lines 80-93), with the
element at loop position `i` at the head and the rest of `daily_primary`
behind it: on a primary change, look at `daily_primary[i:i+5]` and demand
the new contract be primary at least twice in that window; otherwise the
change is flicker and the previous baseline is kept. -/
def detectWalk (prev : List Char) : List DomRec → List RollEvent
  | [] => []
  | d :: rest =>
    if d.primary = prev then detectWalk prev rest
    else
      if 2 ≤ ((d :: rest).take 5).length ∧
          2 ≤ (((d :: rest).take 5).filter (fun x => x.primary = d.primary)).length then
        { date := d.date, from_symbol := prev, to_symbol := d.primary } ::
          detectWalk d.primary rest
      else
        detectWalk prev rest

/-- `detect_true_rollovers` (lines 60-96): start from the first day's
primary contract and walk the remaining days. -/
def detect_true_rollovers (daily_primary : List DomRec) : List RollEvent :=
  match daily_primary with
  | [] => []
  | d0 :: rest => detectWalk d0.primary rest

/-- A raw 1-minute bar (only the fields `compute_rollover_spreads` and
`build_continuous_series` read). -/
structure Bar1m where
  ts : ℤ
  open_ : ℚ
  high : ℚ
  low : ℚ
  close : ℚ
  volume : ℚ
  symbol : List Char
deriving DecidableEq

/-- 12 hours in epoch milliseconds (`pd.Timedelta("12h")`). -/
def H12 : ℤ := 43200000

/-- The `±12h` overlap window around the rollover instant (lines 112-114). -/
def windowOf (df : List Bar1m) (roll : ℤ) : List Bar1m :=
  df.filter (fun b => decide (roll - H12 ≤ b.ts) && decide (b.ts ≤ roll + H12))

/-- The close of the last bar of `bars` at timestamp `t`
(`drop_duplicates("ts_event", keep="last")` followed by the index lookup). -/
def lastCloseAt (bars : List Bar1m) (t : ℤ) : Option ℚ :=
  (bars.reverse.find? (fun b => b.ts == t)).map (fun b => b.close)

/-- The overlapping timestamps of the two deduplicated per-contract series
(`from_bars.index.intersection(to_bars.index)`): each common timestamp
exactly once. -/
def overlapTs (fromBars toBars : List Bar1m) : List ℤ :=
  ((fromBars.map (fun b => b.ts)).dedup).filter
    (fun t => (toBars.map (fun b => b.ts)).contains t)

/-- `pandas.Series.median` on a non-empty list: sort ascending, take the
middle element, or the mean of the two middle elements for even length. -/
def median (l : List ℚ) : ℚ :=
  let s := List.insertionSort (· ≤ ·) l
  if l.length % 2 = 1 then s.getD (l.length / 2) 0
  else (s.getD (l.length / 2 - 1) 0 + s.getD (l.length / 2) 0) / 2

/-- Minimum of a list of spreads (`Series.min` on a non-empty series). -/
def listMin : List ℚ → ℚ
  | [] => 0
  | x :: xs => xs.foldl min x

/-- Maximum of a list of spreads (`Series.max` on a non-empty series). -/
def listMax : List ℚ → ℚ
  | [] => 0
  | x :: xs => xs.foldl max x

/-- The spread fields attached to a rollover by `compute_rollover_spreads`. -/
structure SpreadInfo where
  spread : ℚ
  overlap_bars : ℕ
  spread_min : ℚ
  spread_max : ℚ
deriving DecidableEq

/-- `compute_rollover_spreads` for one rollover (lines 106-148): median of
`to_close - from_close` over the overlapping deduplicated timestamps of
the ±12h window; with no overlap, fall back to the first `to` close at or
after the switch minus the last `from` close before it (`none` models the
`IndexError` the source raises when those bars do not exist). -/
def compute_rollover_spread (df : List Bar1m) (roll : ℤ)
    (from_sym to_sym : List Char) : Option SpreadInfo :=
  let w := windowOf df roll
  let fromBars := w.filter (fun b => b.symbol == from_sym)
  let toBars := w.filter (fun b => b.symbol == to_sym)
  let overlap := overlapTs fromBars toBars
  if overlap.isEmpty then
    match (df.filter (fun b => b.symbol == from_sym && decide (b.ts < roll))).getLast?,
        (df.filter (fun b => b.symbol == to_sym && decide (roll ≤ b.ts))).head? with
    | some lastOld, some firstNew =>
      some { spread := firstNew.close - lastOld.close
             overlap_bars := 0
             spread_min := firstNew.close - lastOld.close
             spread_max := firstNew.close - lastOld.close }
    | _, _ => none
  else
    let spreads := overlap.filterMap (fun t =>
      match lastCloseAt toBars t, lastCloseAt fromBars t with
      | some c2, some c1 => some (c2 - c1)
      | _, _ => none)
    some { spread := median spreads
           overlap_bars := overlap.length
           spread_min := listMin spreads
           spread_max := listMax spreads }

/-- One step of the reverse-order back-adjustment loop of
`build_continuous_series` (lines 233-243): subtract this rollover's
spread from every bar strictly before its switch instant. -/
def adjustStep (switch_ts : ℤ) (spread : ℚ) (bars : List Bar1m) : List Bar1m :=
  bars.map (fun b =>
    if b.ts < switch_ts then
      { b with
        open_ := b.open_ - spread
        high := b.high - spread
        low := b.low - spread
        close := b.close - spread }
    else b)

/-- A rollover with its switch instant (`find_rollover_minute`: midnight
UTC of the rollover date) and computed spread, as consumed by the
back-adjustment loop. -/
structure RollSwitch where
  switch_ts : ℤ
  spread : ℚ
deriving DecidableEq

/-- The back-adjustment loop of `build_continuous_series` (lines 229-243):
process rollovers most-recent first, each subtracting its spread from all
earlier bars. -/
def back_adjust_prices (rollovers : List RollSwitch) (bars : List Bar1m) : List Bar1m :=
  rollovers.reverse.foldl (fun bs r => adjustStep r.switch_ts r.spread bs) bars

/-- The total spread of the rollovers strictly after a timestamp. -/
def laterSpreadSum (rollovers : List RollSwitch) (ts : ℤ) : ℚ :=
  ((rollovers.filter (fun r => decide (ts < r.switch_ts))).map
    (fun r => r.spread)).sum

/-- Shift all four prices of a bar down by `s`. -/
def shiftBar (s : ℚ) (b : Bar1m) : Bar1m :=
  { b with
    open_ := b.open_ - s
    high := b.high - s
    low := b.low - s
    close := b.close - s }

theorem foldl_adjustStep (L : List RollSwitch) (bars : List Bar1m) :
    L.foldl (fun bs r => adjustStep r.switch_ts r.spread bs) bars =
      bars.map (fun b => shiftBar (laterSpreadSum L b.ts) b) := by
  induction L generalizing bars with
  | nil =>
    simp only [List.foldl_nil]
    have : ∀ b : Bar1m, shiftBar (laterSpreadSum [] b.ts) b = b := by
      intro b
      simp [shiftBar, laterSpreadSum]
    rw [List.map_congr_left (fun b _ => this b), List.map_id']
  | cons r L2 ih =>
    simp only [List.foldl_cons]
    rw [ih]
    unfold adjustStep
    rw [List.map_map]
    refine List.map_congr_left (fun b _ => ?_)
    simp only [Function.comp]
    by_cases hb : b.ts < r.switch_ts
    · simp only [if_pos hb]
      simp only [shiftBar, laterSpreadSum, List.filter_cons, decide_eq_true hb,
        eq_self_iff_true, if_true, List.map_cons, List.sum_cons]
      ring_nf
    · simp only [if_neg hb]
      simp only [shiftBar, laterSpreadSum, List.filter_cons, decide_eq_false hb,
        Bool.false_eq_true, if_false]

theorem laterSpreadSum_reverse (rollovers : List RollSwitch) (ts : ℤ) :
    laterSpreadSum rollovers.reverse ts = laterSpreadSum rollovers ts := by
  simp [laterSpreadSum, List.filter_reverse, List.map_reverse, List.sum_reverse]

theorem back_adjust_prices_eq_map (rollovers : List RollSwitch) (bars : List Bar1m) :
    back_adjust_prices rollovers bars =
      bars.map (fun b => shiftBar (laterSpreadSum rollovers b.ts) b) := by
  unfold back_adjust_prices
  rw [foldl_adjustStep]
  exact List.map_congr_left (fun b _ => by rw [laterSpreadSum_reverse])

/-!
## Streaming error behaviour: the raw CSV level

The same pass-1/pass-2 loops of `build-es-1s-continuous.py` over raw
(unparsed) CSV rows.  A Python `IndexError` (row too short for the symbol
column) or `ValueError` (a `float(...)` call on a non-numeric field) is
an uncaught exception that aborts the process; both are modelled as
`Except.error`, so an erroneous run produces no output value at all.
`main`'s up-front existence checks (lines 384-390) and its `sys.exit(1)`
are modelled by `Option` inputs and `Except.error 1`.
-/

/-- A raw CSV data row: the list of its column fields. -/
abbrev RawRow : Type := List (List Char)

/-- All characters are ASCII digits. -/
def allDigits (s : List Char) : Bool := s.all (fun c => c.isDigit)

/-- Numeric value of a digit string. -/
def digitsVal (s : List Char) : ℕ :=
  s.foldl (fun a c => 10 * a + (c.toNat - 48)) 0

/-- Python `float(...)` on an unsigned plain decimal literal
(`digits`, `digits.digits`, `.digits` or `digits.`); anything else
raises `ValueError`, modelled as `none`.  (The source data uses plain
decimal fields only.) -/
def parseUnsigned? (s : List Char) : Option ℚ :=
  match s.splitOn '.' with
  | [i] =>
    if !i.isEmpty && allDigits i then some (digitsVal i) else none
  | [i, f] =>
    if !(i.isEmpty && f.isEmpty) && allDigits i && allDigits f then
      some ((digitsVal i : ℚ) + (digitsVal f : ℚ) / ((10 : ℚ) ^ f.length))
    else none
  | _ => none

/-- Python `float(...)` on a plain decimal literal with optional sign. -/
def parseDecimal? (s : List Char) : Option ℚ :=
  match s with
  | '-' :: rest => (parseUnsigned? rest).map (fun q => -q)
  | '+' :: rest => parseUnsigned? rest
  | _ => parseUnsigned? s

/-- Add `v` to a symbol's accumulated volume (insertion-ordered map,
like a Python dict). -/
def bumpVol : List (List Char × ℚ) → List Char → ℚ → List (List Char × ℚ)
  | [], sym, v => [(sym, v)]
  | (s, x) :: rest, sym, v =>
    if s = sym then (s, x + v) :: rest else (s, x) :: bumpVol rest sym v

/-- `hourly_volume[hk][symbol] += vol` on the nested insertion-ordered map. -/
def bumpHour : List (List Char × List (List Char × ℚ)) → List Char → List Char → ℚ →
    List (List Char × List (List Char × ℚ))
  | [], hk, sym, v => [(hk, [(sym, v)])]
  | (h, m) :: rest, hk, sym, v =>
    if h = hk then (h, bumpVol m sym v) :: rest else (h, m) :: bumpHour rest hk sym v

/-- The pass-1 row loop (`pass1_primary_contracts`, lines 127-167) over
raw rows: read the symbol column (`IndexError` if missing), drop calendar
spreads and out-of-range rows, parse the volume (`ValueError` if not
numeric), and accumulate per-hour per-symbol volume. -/
def pass1Go (start_date end_date : Option (List Char)) :
    List RawRow → List (List Char × List (List Char × ℚ)) →
    Except Unit (List (List Char × List (List Char × ℚ)))
  | [], acc => .ok acc
  | row :: rest, acc =>
    match List.get? row 6 with
    | none => .error ()
    | some symbol =>
      if hasDash symbol then pass1Go start_date end_date rest acc
      else
        if !passesDateFilter start_date end_date (List.getD row 0 []) then
          pass1Go start_date end_date rest acc
        else
          match parseDecimal? (List.getD row 5 []) with
          | none => .error ()
          | some v =>
            pass1Go start_date end_date rest
              (bumpHour acc (hour_key (List.getD row 0 [])) symbol v)

/-- `pass1_primary_contracts` accumulation over the whole file. -/
def pass1_primary_contracts (rows : List RawRow)
    (start_date end_date : Option (List Char)) :
    Except Unit (List (List Char × List (List Char × ℚ))) :=
  pass1Go start_date end_date rows []

/-- `max(symbols, key=symbols.get)`: the first symbol with maximal
accumulated volume, in insertion order. -/
def primaryOf : List (List Char × ℚ) → Option (List Char)
  | [] => none
  | p :: rest => some ((rest.foldl (fun best q => if q.2 > best.2 then q else best) p).1)

/-- `primary_per_hour.get(hk)` built from the pass-1 accumulator
(lines 176-180). -/
def lookupHour (acc : List (List Char × List (List Char × ℚ))) (hk : List Char) :
    Option (List Char) :=
  match acc.find? (fun p => p.1 == hk) with
  | none => none
  | some p => primaryOf p.2

/-- The pass-2 row loop over raw rows (lines 234-292): symbol access,
spread / date-range / primary filters, interval advance, then the four
`float(...)` calls on the OHLC fields; the volume field is copied through
unparsed. -/
def pass2RawGo (primary : List Char → Option (List Char))
    (start_date end_date : Option (List Char))
    (intervals : List (List Char × ℚ)) :
    List RawRow → ℕ → Except Unit (List OutRow)
  | [], _ => .ok []
  | row :: rest, idx =>
    match List.get? row 6 with
    | none => .error ()
    | some symbol =>
      if hasDash symbol then pass2RawGo primary start_date end_date intervals rest idx
      else
        if !passesDateFilter start_date end_date (List.getD row 0 []) then
          pass2RawGo primary start_date end_date intervals rest idx
        else
          match primary (hour_key (List.getD row 0 [])) with
          | none => pass2RawGo primary start_date end_date intervals rest idx
          | some p =>
            if symbol ≠ p then pass2RawGo primary start_date end_date intervals rest idx
            else
              match parseDecimal? (List.getD row 1 []), parseDecimal? (List.getD row 2 []),
                  parseDecimal? (List.getD row 3 []), parseDecimal? (List.getD row 4 []) with
              | some o, some h, some l, some c =>
                match pass2RawGo primary start_date end_date intervals rest
                    (advanceIdx intervals (List.getD row 0 []) idx) with
                | .error e => .error e
                | .ok outs =>
                  .ok ({ ts := List.getD row 0 []
                         open_ := o + intervalAdj intervals
                           (advanceIdx intervals (List.getD row 0 []) idx)
                         high := h + intervalAdj intervals
                           (advanceIdx intervals (List.getD row 0 []) idx)
                         low := l + intervalAdj intervals
                           (advanceIdx intervals (List.getD row 0 []) idx)
                         close := c + intervalAdj intervals
                           (advanceIdx intervals (List.getD row 0 []) idx)
                         volume := List.getD row 5 []
                         symbol := str "ES_continuous"
                         contract := symbol } :: outs)
              | _, _, _, _ => .error ()

/-- The raw-row streaming pass 2, interval index starting at 0. -/
def pass2Raw (primary : List Char → Option (List Char))
    (start_date end_date : Option (List Char))
    (intervals : List (List Char × ℚ)) (rows : List RawRow) :
    Except Unit (List OutRow) :=
  pass2RawGo primary start_date end_date intervals rows 0

/-- `main` (lines 359-427): missing source file or missing rollover log
exits with status 1 before anything is read or written; otherwise build
the bounds and intervals, run pass 1 then pass 2; any uncaught row error
aborts with a non-zero exit and no output value. -/
def main_stream (src : Option (List RawRow)) (log : Option (List Rollover))
    (start_arg end_arg : Option (List Char)) : Except ℕ (List OutRow) :=
  match src with
  | none => .error 1
  | some rows =>
    match log with
    | none => .error 1
    | some rollovers =>
      match pass1_primary_contracts rows (start_arg.map mainStartBound)
          (end_arg.map mainEndBound) with
      | .error _ => .error 1
      | .ok hourly =>
        match pass2Raw (lookupHour hourly) (start_arg.map mainStartBound)
            (end_arg.map mainEndBound) (build_adjustment_intervals rollovers) rows with
        | .error _ => .error 1
        | .ok outs => .ok outs

/-!
## Claim theorems
-/

/-- C5: Flicker rejection — on the bucket-wise dominance sequence
A,A,B,A,A,A with persistence threshold 2 the rollover detector emits no
rollover (B is flicker and A stays the baseline), and on A,A,B,B,B,B it
emits exactly one rollover A→B dated at the first B bucket. -/
theorem C5_flicker_rejection :
    detect_true_rollovers
        [⟨0, str "ESH5"⟩, ⟨1, str "ESH5"⟩, ⟨2, str "ESM5"⟩,
         ⟨3, str "ESH5"⟩, ⟨4, str "ESH5"⟩, ⟨5, str "ESH5"⟩] = [] ∧
    detect_true_rollovers
        [⟨0, str "ESH5"⟩, ⟨1, str "ESH5"⟩, ⟨2, str "ESM5"⟩,
         ⟨3, str "ESM5"⟩, ⟨4, str "ESM5"⟩, ⟨5, str "ESM5"⟩] =
      [{ date := 2, from_symbol := str "ESH5", to_symbol := str "ESM5" }] := by
  constructor <;> decide

/-- C2: for a nonempty, time-ordered rollover list with spreads
`s_0 .. s_{n-1}`, building the adjustment intervals yields `n+1`
intervals in boundary order; the unbounded-past first interval carries
`-(s_0 + .. + s_{n-1})`, the interval whose lower bound is rollover `i`'s
switch timestamp carries the suffix sum `-(s_{i+1} + .. + s_{n-1})`, and
the last interval (at or after the final rollover) carries exactly 0. -/
theorem C2_adjustment_intervals (rs : List Rollover) (hne : rs ≠ [])
    (hlen : ∀ r ∈ rs, r.date.length = 10)
    (hsorted : rs.Pairwise (fun a b => strLeB a.date b.date = true)) :
    (build_adjustment_intervals rs).length = rs.length + 1 ∧
    (build_adjustment_intervals rs).head? = some ([], -spreadsSum rs) ∧
    (∀ i (hi : i < rs.length),
      (build_adjustment_intervals rs).getD (i + 1) ([], 0) =
        ((rs.get ⟨i, hi⟩).date ++ rollSuffix, -spreadsSum (rs.drop (i + 1)))) ∧
    Option.map Prod.snd (build_adjustment_intervals rs).getLast? = some 0 ∧
    (build_adjustment_intervals rs).Pairwise (fun p q => strLeB p.1 q.1 = true) := by
  refine ⟨?_, ?_, ?_, ?_, build_pairwise rs hlen hsorted⟩
  · cases rs with
    | nil => exact absurd rfl hne
    | cons r rest => simp [build_adjustment_intervals, tailIntervals_length]
  · cases rs with
    | nil => exact absurd rfl hne
    | cons r rest => simp [build_adjustment_intervals]
  · intro i hi
    cases rs with
    | nil => simp at hi
    | cons r rest =>
      simp only [build_adjustment_intervals, List.getD_cons_succ]
      exact tailIntervals_getD (r :: rest) i hi
  · cases rs with
    | nil => exact absurd rfl hne
    | cons r rest =>
      have h1 : build_adjustment_intervals (r :: rest) =
          ([], -spreadsSum (r :: rest)) :: tailIntervals (r :: rest) := rfl
      have h2 : tailIntervals (r :: rest) =
          (r.date ++ rollSuffix, -spreadsSum rest) :: tailIntervals rest := rfl
      rw [h1, h2, List.getLast?_cons_cons, ← h2]
      exact tailIntervals_getLast_snd (by simp)

/-- Witness for C2 at a concrete two-rollover log. -/
theorem C2_adjustment_intervals_witness :
    (build_adjustment_intervals
        [⟨str "2021-03-15", str "ESH1", str "ESM1", 5⟩,
         ⟨str "2021-06-14", str "ESM1", str "ESU1", -3⟩]).length = 3 ∧
    Option.map Prod.snd (build_adjustment_intervals
        [⟨str "2021-03-15", str "ESH1", str "ESM1", 5⟩,
         ⟨str "2021-06-14", str "ESM1", str "ESU1", -3⟩]).getLast? = some 0 := by
  have h := C2_adjustment_intervals
    [⟨str "2021-03-15", str "ESH1", str "ESM1", 5⟩,
     ⟨str "2021-06-14", str "ESM1", str "ESU1", -3⟩]
    (by simp) (by decide) (by decide)
  exact ⟨h.1, h.2.2.2.1⟩

/-- C8: with `--start`/`--end` supplied, a bar passes the date filter iff
its calendar date (the 10-character prefix of the ISO-8601 UTC timestamp)
lies in the inclusive range `[start, end]`, and the decision is made by
lexicographic string comparison of the timestamp against the bound
strings `start + "T"` and `end + "T99"`. -/
theorem C8_date_filter (start stop d : List Char) (h1 : Char) (rest : List Char)
    (hds : d.length = start.length) (hde : d.length = stop.length)
    (hh : h1.toNat < 57) :
    passesDateFilter (some (mainStartBound start)) (some (mainEndBound stop))
        (d ++ 'T' :: h1 :: rest) =
      (strLeB start d && strLeB d stop) := by
  have hT : ('T' : Char).toNat = 84 := rfl
  have h9 : ('9' : Char).toNat = 57 := rfl
  have hstart : strLtB (d ++ 'T' :: h1 :: rest) (mainStartBound start) = strLtB d start := by
    unfold mainStartBound
    rw [show ('T' :: h1 :: rest : List Char) = ['T'] ++ (h1 :: rest) from rfl]
    rw [strLtB_append d start (['T'] ++ (h1 :: rest)) ['T'] hds]
    have hinner : strLtB (['T'] ++ (h1 :: rest)) ['T'] = false := by
      simp [strLtB]
    rw [hinner]
    simp
  have hstop : strLtB (mainEndBound stop) (d ++ 'T' :: h1 :: rest) = strLtB stop d := by
    unfold mainEndBound
    rw [show ('T' :: h1 :: rest : List Char) = ['T'] ++ (h1 :: rest) from rfl]
    rw [strLtB_append stop d ['T', '9', '9'] (['T'] ++ (h1 :: rest)) hde.symm]
    have hinner : strLtB ['T', '9', '9'] (['T'] ++ (h1 :: rest)) = false := by
      simp only [List.cons_append, List.nil_append, strLtB, hT, h9, Nat.lt_irrefl,
        if_false]
      have hn1 : ¬(57 < h1.toNat) := by omega
      simp [hn1, hh]
    rw [hinner]
    simp
  show (!strLtB (d ++ 'T' :: h1 :: rest) (mainStartBound start) &&
      !strLtB (mainEndBound stop) (d ++ 'T' :: h1 :: rest)) =
    (strLeB start d && strLeB d stop)
  rw [hstart, hstop]
  rw [show (!strLtB d start) = strLeB start d from not_strLtB_eq d start]
  rw [show (!strLtB stop d) = strLeB d stop from not_strLtB_eq stop d]

/-- Witness for C8: a mid-range timestamp passes, with both bounds given. -/
theorem C8_date_filter_witness :
    passesDateFilter (some (mainStartBound (str "2023-01-01")))
      (some (mainEndBound (str "2023-12-31")))
      (str "2023-05-05T12:00:00.000000000Z") = true := by
  have he : str "2023-05-05T12:00:00.000000000Z" =
      str "2023-05-05" ++ 'T' :: '1' :: str "2:00:00.000000000Z" := by decide
  have h := C8_date_filter (str "2023-01-01") (str "2023-12-31") (str "2023-05-05")
    '1' (str "2:00:00.000000000Z") (by decide) (by decide) (by decide)
  rw [he, h]
  decide

/-- C10: with an empty rollover log the transform is the identity on
prices — exactly one adjustment interval `("", 0)` is built, and every
bar the streaming pass retains is written with its raw OHLC values,
timestamp and volume unchanged. -/
theorem C10_empty_log_identity :
    build_adjustment_intervals [] = [([], 0)] ∧
    ∀ (primary : List Char → Option (List Char)) (sd ed : Option (List Char))
      (rows : List Row) (o : OutRow),
      o ∈ pass2_filter_adjust_write primary sd ed (build_adjustment_intervals []) rows →
      ∃ r ∈ rows, o.ts = r.ts ∧ o.open_ = r.open_ ∧ o.high = r.high ∧
        o.low = r.low ∧ o.close = r.close ∧ o.volume = r.volume := by
  refine ⟨rfl, ?_⟩
  intro primary sd ed rows o ho
  obtain ⟨r, hr, hk, k, he⟩ := pass2Go_mem primary sd ed
    (build_adjustment_intervals []) rows 0 ho
  refine ⟨r, hr, ?_⟩
  have hadj : intervalAdj (build_adjustment_intervals []) k = 0 := by
    match k with
    | 0 => rfl
    | k2 + 1 =>
      show ((build_adjustment_intervals []).getD (k2 + 1) ([], 0)).2 = 0
      rw [show build_adjustment_intervals [] = [([], 0)] from rfl]
      simp [List.getD]
  subst he
  simp [writeRow, hadj]

/-- Witness for C10 on a one-row input with an always-primary contract. -/
theorem C10_empty_log_identity_witness :
    ∃ r ∈ [(⟨str "2021-01-01T00:00:00.000000000Z", 1, 2, 0, 1, str "5",
        str "ESH5"⟩ : Row)],
      (⟨str "2021-01-01T00:00:00.000000000Z", 1, 2, 0, 1, str "5",
        str "ES_continuous", str "ESH5"⟩ : OutRow).ts = r.ts ∧
      (⟨str "2021-01-01T00:00:00.000000000Z", 1, 2, 0, 1, str "5",
        str "ES_continuous", str "ESH5"⟩ : OutRow).open_ = r.open_ ∧
      (⟨str "2021-01-01T00:00:00.000000000Z", 1, 2, 0, 1, str "5",
        str "ES_continuous", str "ESH5"⟩ : OutRow).high = r.high ∧
      (⟨str "2021-01-01T00:00:00.000000000Z", 1, 2, 0, 1, str "5",
        str "ES_continuous", str "ESH5"⟩ : OutRow).low = r.low ∧
      (⟨str "2021-01-01T00:00:00.000000000Z", 1, 2, 0, 1, str "5",
        str "ES_continuous", str "ESH5"⟩ : OutRow).close = r.close ∧
      (⟨str "2021-01-01T00:00:00.000000000Z", 1, 2, 0, 1, str "5",
        str "ES_continuous", str "ESH5"⟩ : OutRow).volume = r.volume := by
  have hkr : keepRow (fun _ => some (str "ESH5")) none none
      ⟨str "2021-01-01T00:00:00.000000000Z", 1, 2, 0, 1, str "5", str "ESH5"⟩ = true := by
    decide
  have hmem : (⟨str "2021-01-01T00:00:00.000000000Z", 1, 2, 0, 1, str "5",
      str "ES_continuous", str "ESH5"⟩ : OutRow) ∈
      pass2_filter_adjust_write (fun _ => some (str "ESH5")) none none
        (build_adjustment_intervals [])
        [⟨str "2021-01-01T00:00:00.000000000Z", 1, 2, 0, 1, str "5", str "ESH5"⟩] := by
    have hpass : pass2_filter_adjust_write (fun _ => some (str "ESH5")) none none
        (build_adjustment_intervals [])
        [⟨str "2021-01-01T00:00:00.000000000Z", 1, 2, 0, 1, str "5", str "ESH5"⟩] =
        [writeRow (build_adjustment_intervals []) 0
          ⟨str "2021-01-01T00:00:00.000000000Z", 1, 2, 0, 1, str "5", str "ESH5"⟩] := by
      simp [pass2_filter_adjust_write, pass2Go, hkr, advanceIdx, advCount,
        build_adjustment_intervals]
    have hout : writeRow (build_adjustment_intervals []) 0
        ⟨str "2021-01-01T00:00:00.000000000Z", 1, 2, 0, 1, str "5", str "ESH5"⟩ =
        ⟨str "2021-01-01T00:00:00.000000000Z", 1, 2, 0, 1, str "5",
          str "ES_continuous", str "ESH5"⟩ := by
      simp [writeRow, intervalAdj, build_adjustment_intervals]
    rw [hpass, hout]
    exact List.mem_singleton.mpr rfl
  exact C10_empty_log_identity.2 (fun _ => some (str "ESH5")) none none _ _ hmem

/-- C9: every row written to the continuous output keeps the source
row's timestamp and volume exactly and carries the original contract
code; only the four price fields change, all shifted by one common
interval adjustment.  Stated for both the streaming pass 2 and the
in-memory 1-minute back-adjustment loop. -/
theorem C9_only_prices_change :
    (∀ (primary : List Char → Option (List Char)) (sd ed : Option (List Char))
      (intervals : List (List Char × ℚ)) (rows : List Row) (o : OutRow),
      o ∈ pass2_filter_adjust_write primary sd ed intervals rows →
      ∃ r ∈ rows, o.ts = r.ts ∧ o.volume = r.volume ∧ o.contract = r.symbol ∧
        o.symbol = str "ES_continuous" ∧
        ∃ adj : ℚ, o.open_ = r.open_ + adj ∧ o.high = r.high + adj ∧
          o.low = r.low + adj ∧ o.close = r.close + adj) ∧
    (∀ (rollovers : List RollSwitch) (bars : List Bar1m) (o : Bar1m),
      o ∈ back_adjust_prices rollovers bars →
      ∃ b ∈ bars, o.ts = b.ts ∧ o.volume = b.volume ∧ o.symbol = b.symbol ∧
        ∃ adj : ℚ, o.open_ = b.open_ + adj ∧ o.high = b.high + adj ∧
          o.low = b.low + adj ∧ o.close = b.close + adj) := by
  constructor
  · intro primary sd ed intervals rows o ho
    obtain ⟨r, hr, hk, k, he⟩ := pass2Go_mem primary sd ed intervals rows 0 ho
    subst he
    exact ⟨r, hr, rfl, rfl, rfl, rfl, intervalAdj intervals k, rfl, rfl, rfl, rfl⟩
  · intro rollovers bars o ho
    rw [back_adjust_prices_eq_map] at ho
    obtain ⟨b, hb, he⟩ := List.mem_map.mp ho
    subst he
    refine ⟨b, hb, rfl, rfl, rfl, -laterSpreadSum rollovers b.ts, ?_, ?_, ?_, ?_⟩ <;>
      simp [shiftBar, sub_eq_add_neg]

/-- Witness for C9 on concrete one-bar inputs for both code paths. -/
theorem C9_only_prices_change_witness :
    (∃ r ∈ [(⟨str "2021-01-01T00:00:00.000000000Z", 1, 2, 0, 1, str "5",
        str "ESH5"⟩ : Row)],
      (⟨str "2021-01-01T00:00:00.000000000Z", 1, 2, 0, 1, str "5",
        str "ES_continuous", str "ESH5"⟩ : OutRow).ts = r.ts ∧
      (⟨str "2021-01-01T00:00:00.000000000Z", 1, 2, 0, 1, str "5",
        str "ES_continuous", str "ESH5"⟩ : OutRow).volume = r.volume ∧
      (⟨str "2021-01-01T00:00:00.000000000Z", 1, 2, 0, 1, str "5",
        str "ES_continuous", str "ESH5"⟩ : OutRow).contract = r.symbol ∧
      (⟨str "2021-01-01T00:00:00.000000000Z", 1, 2, 0, 1, str "5",
        str "ES_continuous", str "ESH5"⟩ : OutRow).symbol = str "ES_continuous" ∧
      ∃ adj : ℚ,
        (⟨str "2021-01-01T00:00:00.000000000Z", 1, 2, 0, 1, str "5",
          str "ES_continuous", str "ESH5"⟩ : OutRow).open_ = r.open_ + adj ∧
        (⟨str "2021-01-01T00:00:00.000000000Z", 1, 2, 0, 1, str "5",
          str "ES_continuous", str "ESH5"⟩ : OutRow).high = r.high + adj ∧
        (⟨str "2021-01-01T00:00:00.000000000Z", 1, 2, 0, 1, str "5",
          str "ES_continuous", str "ESH5"⟩ : OutRow).low = r.low + adj ∧
        (⟨str "2021-01-01T00:00:00.000000000Z", 1, 2, 0, 1, str "5",
          str "ES_continuous", str "ESH5"⟩ : OutRow).close = r.close + adj) ∧
    (∃ b ∈ [(⟨100, 10, 11, 9, 10, 3, str "ESH5"⟩ : Bar1m)],
      (⟨100, 10, 11, 9, 10, 3, str "ESH5"⟩ : Bar1m).ts = b.ts ∧
      (⟨100, 10, 11, 9, 10, 3, str "ESH5"⟩ : Bar1m).volume = b.volume ∧
      (⟨100, 10, 11, 9, 10, 3, str "ESH5"⟩ : Bar1m).symbol = b.symbol ∧
      ∃ adj : ℚ,
        (⟨100, 10, 11, 9, 10, 3, str "ESH5"⟩ : Bar1m).open_ = b.open_ + adj ∧
        (⟨100, 10, 11, 9, 10, 3, str "ESH5"⟩ : Bar1m).high = b.high + adj ∧
        (⟨100, 10, 11, 9, 10, 3, str "ESH5"⟩ : Bar1m).low = b.low + adj ∧
        (⟨100, 10, 11, 9, 10, 3, str "ESH5"⟩ : Bar1m).close = b.close + adj) := by
  constructor
  · have hkr : keepRow (fun _ => some (str "ESH5")) none none
        ⟨str "2021-01-01T00:00:00.000000000Z", 1, 2, 0, 1, str "5", str "ESH5"⟩ = true := by
      decide
    have hmem : (⟨str "2021-01-01T00:00:00.000000000Z", 1, 2, 0, 1, str "5",
        str "ES_continuous", str "ESH5"⟩ : OutRow) ∈
        pass2_filter_adjust_write (fun _ => some (str "ESH5")) none none
          (build_adjustment_intervals [])
          [⟨str "2021-01-01T00:00:00.000000000Z", 1, 2, 0, 1, str "5", str "ESH5"⟩] := by
      have hpass : pass2_filter_adjust_write (fun _ => some (str "ESH5")) none none
          (build_adjustment_intervals [])
          [⟨str "2021-01-01T00:00:00.000000000Z", 1, 2, 0, 1, str "5", str "ESH5"⟩] =
          [writeRow (build_adjustment_intervals []) 0
            ⟨str "2021-01-01T00:00:00.000000000Z", 1, 2, 0, 1, str "5", str "ESH5"⟩] := by
        simp [pass2_filter_adjust_write, pass2Go, hkr, advanceIdx, advCount,
          build_adjustment_intervals]
      have hout : writeRow (build_adjustment_intervals []) 0
          ⟨str "2021-01-01T00:00:00.000000000Z", 1, 2, 0, 1, str "5", str "ESH5"⟩ =
          ⟨str "2021-01-01T00:00:00.000000000Z", 1, 2, 0, 1, str "5",
            str "ES_continuous", str "ESH5"⟩ := by
        simp [writeRow, intervalAdj, build_adjustment_intervals]
      rw [hpass, hout]
      exact List.mem_singleton.mpr rfl
    exact C9_only_prices_change.1 (fun _ => some (str "ESH5")) none none
      (build_adjustment_intervals []) _ _ hmem
  · have hmem : (⟨100, 10, 11, 9, 10, 3, str "ESH5"⟩ : Bar1m) ∈
        back_adjust_prices [] [⟨100, 10, 11, 9, 10, 3, str "ESH5"⟩] := by
      show _ ∈ ([] : List RollSwitch).reverse.foldl _ _
      exact List.mem_singleton.mpr rfl
    exact C9_only_prices_change.2 [] _ _ hmem

/-- C1: return preservation — for two bars of the same contract retained
in the continuous output whose span crosses no rollover boundary, the
difference of adjusted closes equals the difference of raw closes
exactly: the back-adjustment is one constant shift on that span.  Stated
for the streaming pass 2 (boundaries are the built adjustment-interval
bounds) and for the 1-minute back-adjustment loop (boundaries are the
rollover switch instants). -/
theorem C1_return_preservation :
    (∀ (rollovers : List Rollover) (primary : List Char → Option (List Char))
      (sd ed : Option (List Char)) (rows : List Row) (a b : Row),
      SortedRows rows → a ∈ rows → b ∈ rows →
      keepRow primary sd ed a = true → keepRow primary sd ed b = true →
      a.symbol = b.symbol → strLeB a.ts b.ts = true →
      (∀ p ∈ (build_adjustment_intervals rollovers).drop 1,
        strLeB p.1 b.ts = true → strLeB p.1 a.ts = true) →
      ∃ oa ∈ pass2_filter_adjust_write primary sd ed
          (build_adjustment_intervals rollovers) rows,
        ∃ ob ∈ pass2_filter_adjust_write primary sd ed
            (build_adjustment_intervals rollovers) rows,
          oa.ts = a.ts ∧ ob.ts = b.ts ∧ oa.contract = a.symbol ∧
          ob.contract = b.symbol ∧
          ob.close - oa.close = b.close - a.close ∧
          oa.close - a.close = ob.close - b.close) ∧
    (∀ (rollovers : List RollSwitch) (bars : List Bar1m) (a b : Bar1m),
      a ∈ bars → b ∈ bars → a.symbol = b.symbol →
      (∀ r ∈ rollovers, a.ts < r.switch_ts → b.ts < r.switch_ts) →
      (∀ r ∈ rollovers, b.ts < r.switch_ts → a.ts < r.switch_ts) →
      ∃ oa ∈ back_adjust_prices rollovers bars,
        ∃ ob ∈ back_adjust_prices rollovers bars,
          oa.ts = a.ts ∧ ob.ts = b.ts ∧
          ob.close - oa.close = b.close - a.close ∧
          oa.close - a.close = ob.close - b.close) := by
  constructor
  · intro rollovers primary sd ed rows a b hs ha hb hka hkb hsym hab hspan
    have hpass := pass2_eq_map_filter rollovers primary sd ed rows hs
    have hma : adjustRow (build_adjustment_intervals rollovers) a ∈
        pass2_filter_adjust_write primary sd ed
          (build_adjustment_intervals rollovers) rows := by
      rw [hpass]
      exact List.mem_map_of_mem _ (List.mem_filter.mpr ⟨ha, hka⟩)
    have hmb : adjustRow (build_adjustment_intervals rollovers) b ∈
        pass2_filter_adjust_write primary sd ed
          (build_adjustment_intervals rollovers) rows := by
      rw [hpass]
      exact List.mem_map_of_mem _ (List.mem_filter.mpr ⟨hb, hkb⟩)
    have hcount : advCount a.ts ((build_adjustment_intervals rollovers).drop 1) =
        advCount b.ts ((build_adjustment_intervals rollovers).drop 1) :=
      advCount_eq_of_no_boundary hab hspan
    refine ⟨adjustRow (build_adjustment_intervals rollovers) a, hma,
      adjustRow (build_adjustment_intervals rollovers) b, hmb,
      rfl, rfl, rfl, rfl, ?_, ?_⟩ <;>
    · show _ = _
      simp only [adjustRow, writeRow, hcount]
      ring
  · intro rollovers bars a b ha hb hsym hfwd hbwd
    have hsum : laterSpreadSum rollovers a.ts = laterSpreadSum rollovers b.ts := by
      unfold laterSpreadSum
      have hfe : rollovers.filter (fun r => decide (a.ts < r.switch_ts)) =
          rollovers.filter (fun r => decide (b.ts < r.switch_ts)) := by
        apply List.filter_congr
        intro r hr
        by_cases hx : a.ts < r.switch_ts
        · simp [hx, hfwd r hr hx]
        · have hy : ¬(b.ts < r.switch_ts) := fun hyy => hx (hbwd r hr hyy)
          simp [hx, hy]
      rw [hfe]
    rw [back_adjust_prices_eq_map]
    refine ⟨shiftBar (laterSpreadSum rollovers a.ts) a,
      List.mem_map_of_mem _ ha,
      shiftBar (laterSpreadSum rollovers b.ts) b,
      List.mem_map_of_mem _ hb, rfl, rfl, ?_, ?_⟩ <;>
    · simp only [shiftBar, hsum]
      ring

/-- Witness for C1 on concrete two-bar inputs for both code paths. -/
theorem C1_return_preservation_witness :
    (∃ oa ∈ pass2_filter_adjust_write (fun _ => some (str "ESM1")) none none
        (build_adjustment_intervals [⟨str "2021-06-14", str "ESM1", str "ESU1", 5⟩])
        [⟨str "2021-06-10T00:00:00.000000000Z", 1, 2, 0, 1, str "5", str "ESM1"⟩,
         ⟨str "2021-06-11T00:00:00.000000000Z", 3, 4, 2, 3, str "6", str "ESM1"⟩],
      ∃ ob ∈ pass2_filter_adjust_write (fun _ => some (str "ESM1")) none none
          (build_adjustment_intervals [⟨str "2021-06-14", str "ESM1", str "ESU1", 5⟩])
          [⟨str "2021-06-10T00:00:00.000000000Z", 1, 2, 0, 1, str "5", str "ESM1"⟩,
           ⟨str "2021-06-11T00:00:00.000000000Z", 3, 4, 2, 3, str "6", str "ESM1"⟩],
        oa.ts = str "2021-06-10T00:00:00.000000000Z" ∧
        ob.ts = str "2021-06-11T00:00:00.000000000Z" ∧
        oa.contract = str "ESM1" ∧ ob.contract = str "ESM1" ∧
        ob.close - oa.close = (3 : ℚ) - 1 ∧
        oa.close - 1 = ob.close - 3) ∧
    (∃ oa ∈ back_adjust_prices [⟨1000, 5⟩]
        [⟨100, 10, 11, 9, 10, 3, str "ESH5"⟩, ⟨200, 12, 13, 11, 12, 4, str "ESH5"⟩],
      ∃ ob ∈ back_adjust_prices [⟨1000, 5⟩]
          [⟨100, 10, 11, 9, 10, 3, str "ESH5"⟩, ⟨200, 12, 13, 11, 12, 4, str "ESH5"⟩],
        oa.ts = 100 ∧ ob.ts = 200 ∧
        ob.close - oa.close = (12 : ℚ) - 10 ∧
        oa.close - 10 = ob.close - 12) := by
  constructor
  · exact C1_return_preservation.1
      [⟨str "2021-06-14", str "ESM1", str "ESU1", 5⟩]
      (fun _ => some (str "ESM1")) none none
      [⟨str "2021-06-10T00:00:00.000000000Z", 1, 2, 0, 1, str "5", str "ESM1"⟩,
       ⟨str "2021-06-11T00:00:00.000000000Z", 3, 4, 2, 3, str "6", str "ESM1"⟩]
      ⟨str "2021-06-10T00:00:00.000000000Z", 1, 2, 0, 1, str "5", str "ESM1"⟩
      ⟨str "2021-06-11T00:00:00.000000000Z", 3, 4, 2, 3, str "6", str "ESM1"⟩
      (by constructor
          · intro b hb
            simp only [List.mem_singleton] at hb
            subst hb
            decide
          · simp [SortedRows])
      (by simp) (by simp) (by decide) (by decide) (by decide) (by decide)
      (by decide)
  · exact C1_return_preservation.2 [⟨1000, 5⟩]
      [⟨100, 10, 11, 9, 10, 3, str "ESH5"⟩, ⟨200, 12, 13, 11, 12, 4, str "ESH5"⟩]
      ⟨100, 10, 11, 9, 10, 3, str "ESH5"⟩ ⟨200, 12, 13, 11, 12, 4, str "ESH5"⟩
      (by simp) (by simp) (by decide)
      (by intro r hr hx
          simp only [List.mem_singleton] at hr
          subst hr
          decide)
      (by intro r hr hx
          simp only [List.mem_singleton] at hr
          subst hr
          decide)

theorem filterMap_sub_eq_map (toBars fromBars : List Bar1m) (l : List ℤ)
    (h : ∀ t ∈ l, (lastCloseAt toBars t).isSome ∧ (lastCloseAt fromBars t).isSome) :
    l.filterMap (fun t =>
      match lastCloseAt toBars t, lastCloseAt fromBars t with
      | some c2, some c1 => some (c2 - c1)
      | _, _ => none) =
    l.map (fun t => (lastCloseAt toBars t).getD 0 - (lastCloseAt fromBars t).getD 0) := by
  induction l with
  | nil => rfl
  | cons t rest ih =>
    obtain ⟨h2, h1⟩ := h t (List.mem_cons_self _ _)
    obtain ⟨c2, hc2⟩ := Option.isSome_iff_exists.mp h2
    obtain ⟨c1, hc1⟩ := Option.isSome_iff_exists.mp h1
    simp only [List.filterMap_cons, List.map_cons, hc2, hc1]
    rw [ih (fun x hx => h x (List.mem_cons_of_mem _ hx))]
    simp

/-- C6: for a rollover with at least one overlapping timestamp in the
±12h window (after last-bar-per-timestamp deduplication), the recorded
spread is the median of `to_close - from_close` over the overlap, with
`overlap_bar_count`, `spread_min`, `spread_max` recorded; with no
overlap, the spread is the incoming contract's first close at or after
the switch minus the outgoing contract's last close before it, recorded
with count 0 and min = max = spread. -/
theorem C6_spread_computation (df : List Bar1m) (roll : ℤ) (from_sym to_sym : List Char) :
    (overlapTs ((windowOf df roll).filter (fun b => b.symbol == from_sym))
        ((windowOf df roll).filter (fun b => b.symbol == to_sym)) ≠ [] →
      (∀ t ∈ overlapTs ((windowOf df roll).filter (fun b => b.symbol == from_sym))
          ((windowOf df roll).filter (fun b => b.symbol == to_sym)),
        (lastCloseAt ((windowOf df roll).filter (fun b => b.symbol == to_sym)) t).isSome ∧
        (lastCloseAt ((windowOf df roll).filter (fun b => b.symbol == from_sym)) t).isSome) ∧
      compute_rollover_spread df roll from_sym to_sym =
        some { spread := median
                 ((overlapTs ((windowOf df roll).filter (fun b => b.symbol == from_sym))
                     ((windowOf df roll).filter (fun b => b.symbol == to_sym))).map
                   (fun t =>
                     (lastCloseAt ((windowOf df roll).filter
                         (fun b => b.symbol == to_sym)) t).getD 0 -
                     (lastCloseAt ((windowOf df roll).filter
                         (fun b => b.symbol == from_sym)) t).getD 0))
               overlap_bars := (overlapTs
                 ((windowOf df roll).filter (fun b => b.symbol == from_sym))
                 ((windowOf df roll).filter (fun b => b.symbol == to_sym))).length
               spread_min := listMin
                 ((overlapTs ((windowOf df roll).filter (fun b => b.symbol == from_sym))
                     ((windowOf df roll).filter (fun b => b.symbol == to_sym))).map
                   (fun t =>
                     (lastCloseAt ((windowOf df roll).filter
                         (fun b => b.symbol == to_sym)) t).getD 0 -
                     (lastCloseAt ((windowOf df roll).filter
                         (fun b => b.symbol == from_sym)) t).getD 0))
               spread_max := listMax
                 ((overlapTs ((windowOf df roll).filter (fun b => b.symbol == from_sym))
                     ((windowOf df roll).filter (fun b => b.symbol == to_sym))).map
                   (fun t =>
                     (lastCloseAt ((windowOf df roll).filter
                         (fun b => b.symbol == to_sym)) t).getD 0 -
                     (lastCloseAt ((windowOf df roll).filter
                         (fun b => b.symbol == from_sym)) t).getD 0)) }) ∧
    (overlapTs ((windowOf df roll).filter (fun b => b.symbol == from_sym))
        ((windowOf df roll).filter (fun b => b.symbol == to_sym)) = [] →
      ∀ lastOld firstNew : Bar1m,
        (df.filter (fun b => b.symbol == from_sym && decide (b.ts < roll))).getLast? =
          some lastOld →
        (df.filter (fun b => b.symbol == to_sym && decide (roll ≤ b.ts))).head? =
          some firstNew →
        compute_rollover_spread df roll from_sym to_sym =
          some { spread := firstNew.close - lastOld.close
                 overlap_bars := 0
                 spread_min := firstNew.close - lastOld.close
                 spread_max := firstNew.close - lastOld.close }) := by
  constructor
  · intro hne
    have hsome : ∀ t ∈ overlapTs
        ((windowOf df roll).filter (fun b => b.symbol == from_sym))
        ((windowOf df roll).filter (fun b => b.symbol == to_sym)),
        (lastCloseAt ((windowOf df roll).filter (fun b => b.symbol == to_sym)) t).isSome ∧
        (lastCloseAt ((windowOf df roll).filter (fun b => b.symbol == from_sym)) t).isSome := by
      intro t ht
      unfold overlapTs at ht
      obtain ⟨hfrom, hto⟩ := List.mem_filter.mp ht
      have hfrom2 : t ∈ ((windowOf df roll).filter
          (fun b => b.symbol == from_sym)).map (fun b => b.ts) :=
        List.dedup_subset _ hfrom
      have hto2 : t ∈ ((windowOf df roll).filter
          (fun b => b.symbol == to_sym)).map (fun b => b.ts) := by
        simpa using hto
      constructor
      · obtain ⟨b, hb, hbe⟩ := List.mem_map.mp hto2
        unfold lastCloseAt
        have hfs : (List.find? (fun b2 => b2.ts == t)
            ((windowOf df roll).filter (fun b2 => b2.symbol == to_sym)).reverse).isSome := by
          rw [List.find?_isSome]
          exact ⟨b, List.mem_reverse.mpr hb, by simp [hbe]⟩
        obtain ⟨bb, hbb⟩ := Option.isSome_iff_exists.mp hfs
        simp [hbb]
      · obtain ⟨b, hb, hbe⟩ := List.mem_map.mp hfrom2
        unfold lastCloseAt
        have hfs : (List.find? (fun b2 => b2.ts == t)
            ((windowOf df roll).filter (fun b2 => b2.symbol == from_sym)).reverse).isSome := by
          rw [List.find?_isSome]
          exact ⟨b, List.mem_reverse.mpr hb, by simp [hbe]⟩
        obtain ⟨bb, hbb⟩ := Option.isSome_iff_exists.mp hfs
        simp [hbb]
    refine ⟨hsome, ?_⟩
    unfold compute_rollover_spread
    rw [if_neg (by simpa [List.isEmpty_iff] using hne)]
    rw [filterMap_sub_eq_map _ _ _ hsome]
  · intro hemp lastOld firstNew hlast hfirst
    unfold compute_rollover_spread
    rw [if_pos (by simpa [List.isEmpty_iff] using hemp)]
    rw [hlast, hfirst]

/-- Witness for C6 on a concrete four-bar window with two overlapping
timestamps: spreads 5 and 6, median 11/2, min 5, max 6, count 2. -/
theorem C6_spread_computation_witness :
    compute_rollover_spread
      [⟨100, 10, 10, 10, 10, 1, str "ESH5"⟩, ⟨100, 15, 15, 15, 15, 1, str "ESM5"⟩,
       ⟨200, 11, 11, 11, 11, 1, str "ESH5"⟩, ⟨200, 17, 17, 17, 17, 1, str "ESM5"⟩]
      150 (str "ESH5") (str "ESM5") =
      some { spread := 11 / 2, overlap_bars := 2, spread_min := 5, spread_max := 6 } := by
  have h := (C6_spread_computation
    [⟨100, 10, 10, 10, 10, 1, str "ESH5"⟩, ⟨100, 15, 15, 15, 15, 1, str "ESM5"⟩,
     ⟨200, 11, 11, 11, 11, 1, str "ESH5"⟩, ⟨200, 17, 17, 17, 17, 1, str "ESM5"⟩]
    150 (str "ESH5") (str "ESM5")).1 (by decide)
  rw [h.2]
  have hov : overlapTs
      ((windowOf [⟨100, 10, 10, 10, 10, 1, str "ESH5"⟩,
          ⟨100, 15, 15, 15, 15, 1, str "ESM5"⟩,
          ⟨200, 11, 11, 11, 11, 1, str "ESH5"⟩,
          ⟨200, 17, 17, 17, 17, 1, str "ESM5"⟩] 150).filter
        (fun b => b.symbol == str "ESH5"))
      ((windowOf [⟨100, 10, 10, 10, 10, 1, str "ESH5"⟩,
          ⟨100, 15, 15, 15, 15, 1, str "ESM5"⟩,
          ⟨200, 11, 11, 11, 11, 1, str "ESH5"⟩,
          ⟨200, 17, 17, 17, 17, 1, str "ESM5"⟩] 150).filter
        (fun b => b.symbol == str "ESM5")) = [100, 200] := by decide
  have hto100 : lastCloseAt
      ((windowOf [⟨100, 10, 10, 10, 10, 1, str "ESH5"⟩,
          ⟨100, 15, 15, 15, 15, 1, str "ESM5"⟩,
          ⟨200, 11, 11, 11, 11, 1, str "ESH5"⟩,
          ⟨200, 17, 17, 17, 17, 1, str "ESM5"⟩] 150).filter
        (fun b => b.symbol == str "ESM5")) 100 = some 15 := by decide
  have hto200 : lastCloseAt
      ((windowOf [⟨100, 10, 10, 10, 10, 1, str "ESH5"⟩,
          ⟨100, 15, 15, 15, 15, 1, str "ESM5"⟩,
          ⟨200, 11, 11, 11, 11, 1, str "ESH5"⟩,
          ⟨200, 17, 17, 17, 17, 1, str "ESM5"⟩] 150).filter
        (fun b => b.symbol == str "ESM5")) 200 = some 17 := by decide
  have hfr100 : lastCloseAt
      ((windowOf [⟨100, 10, 10, 10, 10, 1, str "ESH5"⟩,
          ⟨100, 15, 15, 15, 15, 1, str "ESM5"⟩,
          ⟨200, 11, 11, 11, 11, 1, str "ESH5"⟩,
          ⟨200, 17, 17, 17, 17, 1, str "ESM5"⟩] 150).filter
        (fun b => b.symbol == str "ESH5")) 100 = some 10 := by decide
  have hfr200 : lastCloseAt
      ((windowOf [⟨100, 10, 10, 10, 10, 1, str "ESH5"⟩,
          ⟨100, 15, 15, 15, 15, 1, str "ESM5"⟩,
          ⟨200, 11, 11, 11, 11, 1, str "ESH5"⟩,
          ⟨200, 17, 17, 17, 17, 1, str "ESM5"⟩] 150).filter
        (fun b => b.symbol == str "ESH5")) 200 = some 11 := by decide
  rw [hov]
  simp only [List.map_cons, List.map_nil, hto100, hto200, hfr100, hfr200,
    Option.getD_some, List.length_cons, List.length_nil]
  norm_num [median, List.insertionSort, List.orderedInsert, listMin, listMax,
    List.foldl, min_def, max_def]

/-- Counterexample to C4 as stated: at a timestamp exactly equal to a
rollover's switch instant the code's cumulative adjustment is 0 (it sums
only rollovers strictly after the timestamp), not `-spread` as the
"at or after" reading demands; and a level with a third decimal place is
not merely shifted — the shifted value is rounded to 2 decimal places
(`1/8` becomes `0.12`, not `0.125`). -/
theorem C4_counterexample :
    compute_adjustment 1000 [⟨1000, 1⟩] ≠ spec_adjustment_at_or_after 1000 [⟨1000, 1⟩] ∧
    adjust_levels [⟨1000, 1⟩] 1000 [1 / 8] ≠
      [(1 / 8 : ℚ) + spec_adjustment_at_or_after 1000 [⟨1000, 1⟩]] ∧
    adjust_levels [⟨1000, 1⟩] 1000 [1 / 8] ≠
      [(1 / 8 : ℚ) + compute_adjustment 1000 [⟨1000, 1⟩]] := by
  have hadj : compute_adjustment 1000 [⟨1000, 1⟩] = 0 := by
    norm_num [compute_adjustment, List.foldl]
  have hspec : spec_adjustment_at_or_after 1000 [⟨1000, 1⟩] = -1 := by
    norm_num [spec_adjustment_at_or_after]
  have hr2 : round2 ((1 : ℚ) / 8 + 0) = 3 / 25 := by
    norm_num [round2, roundHalfEven]
  have hlev : adjust_levels [⟨1000, 1⟩] 1000 [1 / 8] = [(3 : ℚ) / 25] := by
    simp only [adjust_levels, List.map_cons, List.map_nil, hadj, hr2]
  refine ⟨?_, ?_, ?_⟩
  · rw [hadj, hspec]
    norm_num
  · rw [hlev, hspec]
    norm_num
  · rw [hlev, hadj]
    norm_num

/-- C4 (amended): the auxiliary adjuster's cumulative adjustment at `t`
is the sum of `-spread` over every rollover whose switch timestamp is
*strictly after* `t`, and every level field of the record becomes that
adjustment added to the raw level and then rounded to 2 decimal places
(half to even). -/
theorem C4_amended (t : ℤ) (rollovers : List RolloverMs) (levels : List ℚ) :
    compute_adjustment t rollovers = strict_adjustment_after t rollovers ∧
    adjust_levels rollovers t levels =
      levels.map (fun v => round2 (v + strict_adjustment_after t rollovers)) := by
  refine ⟨compute_adjustment_eq t rollovers, ?_⟩
  unfold adjust_levels
  rw [compute_adjustment_eq]

/-- Counterexample to C3 as stated: with the same (here empty) rollover
log, the auxiliary adjuster applied to a value equal to a bar's raw close
`801/8 = 100.125` yields `2503/25 = 100.12` (it rounds to 2 decimal
places), while the streaming engine writes the close `801/8` unchanged —
the two adjusted values are not identical. -/
theorem C3_counterexample :
    adjust_levels [] 0 [(801 : ℚ) / 8] = [(2503 : ℚ) / 25] ∧
    pass2_filter_adjust_write (fun _ => some (str "ESH5")) none none
      (build_adjustment_intervals [])
      [⟨str "2021-06-10T00:00:00.000000000Z", 801 / 8, 801 / 8, 801 / 8, 801 / 8,
        str "5", str "ESH5"⟩] =
      [⟨str "2021-06-10T00:00:00.000000000Z", 801 / 8, 801 / 8, 801 / 8, 801 / 8,
        str "5", str "ES_continuous", str "ESH5"⟩] ∧
    ((2503 : ℚ) / 25) ≠ (801 : ℚ) / 8 := by
  refine ⟨?_, ?_, by norm_num⟩
  · have hadj0 : compute_adjustment 0 ([] : List RolloverMs) = 0 := rfl
    have hr2b : round2 ((801 : ℚ) / 8 + 0) = 2503 / 25 := by
      norm_num [round2, roundHalfEven]
    simp only [adjust_levels, List.map_cons, List.map_nil, hadj0, hr2b]
  · have hkr : keepRow (fun _ => some (str "ESH5")) none none
        ⟨str "2021-06-10T00:00:00.000000000Z", 801 / 8, 801 / 8, 801 / 8, 801 / 8,
          str "5", str "ESH5"⟩ = true := by
      decide
    have hpass : pass2_filter_adjust_write (fun _ => some (str "ESH5")) none none
        (build_adjustment_intervals [])
        [⟨str "2021-06-10T00:00:00.000000000Z", 801 / 8, 801 / 8, 801 / 8, 801 / 8,
          str "5", str "ESH5"⟩] =
        [writeRow (build_adjustment_intervals []) 0
          ⟨str "2021-06-10T00:00:00.000000000Z", 801 / 8, 801 / 8, 801 / 8, 801 / 8,
            str "5", str "ESH5"⟩] := by
      simp [pass2_filter_adjust_write, pass2Go, hkr, advanceIdx, advCount,
        build_adjustment_intervals]
    rw [hpass]
    simp [writeRow, intervalAdj, build_adjustment_intervals]

/-- C3 (amended): given the same rollover log, with the auxiliary
timestamp and the bar timestamp on the same side of every rollover
boundary, the auxiliary adjuster applies the *identical* cumulative
adjustment the streaming engine applies to that bar, and its output
value is the engine's adjusted close rounded to 2 decimal places. -/
theorem C3_amended (rollovers : List Rollover) (msOf : Rollover → ℤ)
    (primary : List Char → Option (List Char)) (sd ed : Option (List Char))
    (rows : List Row) (r : Row) (t : ℤ)
    (hrows : SortedRows rows) (hr : r ∈ rows) (hk : keepRow primary sd ed r = true)
    (hsorted : (tailIntervals rollovers).Pairwise (fun p q => strLeB p.1 q.1 = true))
    (hc : ∀ ro ∈ rollovers, (t < msOf ro ↔ strLeB (ro.date ++ rollSuffix) r.ts = false)) :
    ∃ o ∈ pass2_filter_adjust_write primary sd ed
        (build_adjustment_intervals rollovers) rows,
      o.ts = r.ts ∧ o.contract = r.symbol ∧
      compute_adjustment t (rollovers.map (fun ro => RolloverMs.mk (msOf ro) ro.spread)) =
        adjAt (build_adjustment_intervals rollovers) r.ts ∧
      adjust_levels (rollovers.map (fun ro => RolloverMs.mk (msOf ro) ro.spread)) t
        [r.close] = [round2 o.close] := by
  have hpass := pass2_eq_map_filter rollovers primary sd ed rows hrows
  refine ⟨adjustRow (build_adjustment_intervals rollovers) r, ?_, rfl, rfl, ?_, ?_⟩
  · rw [hpass]
    exact List.mem_map_of_mem _ (List.mem_filter.mpr ⟨hr, hk⟩)
  · exact compute_adjustment_eq_adjAt rollovers msOf t r.ts hsorted hc
  · unfold adjust_levels
    simp only [List.map_cons, List.map_nil]
    rw [compute_adjustment_eq_adjAt rollovers msOf t r.ts hsorted hc]
    rfl

/-- Witness for C3 (amended) at a concrete one-rollover log and one bar
before the boundary. -/
theorem C3_amended_witness :
    ∃ o ∈ pass2_filter_adjust_write (fun _ => some (str "ESM1")) none none
        (build_adjustment_intervals [⟨str "2021-06-14", str "ESM1", str "ESU1", 5⟩])
        [⟨str "2021-06-10T00:00:00.000000000Z", 1, 2, 0, 4000, str "5", str "ESM1"⟩],
      o.ts = str "2021-06-10T00:00:00.000000000Z" ∧ o.contract = str "ESM1" ∧
      compute_adjustment 0 ([(⟨str "2021-06-14", str "ESM1", str "ESU1", 5⟩ : Rollover)].map
        (fun ro => RolloverMs.mk 100 ro.spread)) =
        adjAt (build_adjustment_intervals [⟨str "2021-06-14", str "ESM1", str "ESU1", 5⟩])
          (str "2021-06-10T00:00:00.000000000Z") ∧
      adjust_levels ([(⟨str "2021-06-14", str "ESM1", str "ESU1", 5⟩ : Rollover)].map
        (fun ro => RolloverMs.mk 100 ro.spread)) 0 [(4000 : ℚ)] = [round2 o.close] := by
  exact C3_amended [⟨str "2021-06-14", str "ESM1", str "ESU1", 5⟩] (fun _ => 100)
    (fun _ => some (str "ESM1")) none none
    [⟨str "2021-06-10T00:00:00.000000000Z", 1, 2, 0, 4000, str "5", str "ESM1"⟩]
    ⟨str "2021-06-10T00:00:00.000000000Z", 1, 2, 0, 4000, str "5", str "ESM1"⟩ 0
    (by simp [SortedRows]) (by simp) (by decide) (by simp [tailIntervals])
    (by decide)

/-- Counterexample to C7 as stated: a structurally malformed row (its
`open` field `"abc"` is not numeric) whose symbol is a calendar spread is
silently *skipped* by the streaming pass — the run succeeds and produces
the remaining output rather than failing. -/
theorem C7_counterexample :
    pass2Raw (fun _ => some (str "ESH5")) none none (build_adjustment_intervals [])
      [[str "2021-01-01T00:00:00.000000000Z", str "abc", str "1", str "1", str "1",
        str "5", str "ESH5-ESM5"],
       [str "2021-01-01T00:00:01.000000000Z", str "2", str "3", str "1", str "2",
        str "7", str "ESH5"]] =
      .ok [⟨str "2021-01-01T00:00:01.000000000Z", 2, 3, 1, 2, str "7",
        str "ES_continuous", str "ESH5"⟩] := by
  simp only [pass2Raw, pass2RawGo, List.get?, hasDash, List.getD, passesDateFilter,
    hour_key]
  norm_num [str, advanceIdx, advCount, build_adjustment_intervals, intervalAdj]
  rw [if_neg (show ¬('-' = 'E' ∨ '-' = 'S' ∨ '-' = 'H' ∨ '-' = '5') from by decide)]
  simp [show parseDecimal? ['2'] = some 2 from by decide,
    show parseDecimal? ['3'] = some 3 from by decide,
    show parseDecimal? ['1'] = some 1 from by decide]

/-- C7 (amended): in the streaming path a row with too few columns to
hold the symbol field is fatal for every row; a non-numeric OHLC field is
fatal for every row that reaches the adjust-and-write stage (i.e. that
survives the spread/date/primary filters); a non-numeric volume field is
fatal in pass 1 for every row surviving its spread/date filters (pass 2
never parses the volume); and a missing source file or rollover log makes
`main` exit 1 before any output exists.  In every error case the run
yields no output value at all. -/
theorem C7_amended :
    (∀ (primary : List Char → Option (List Char)) (sd ed : Option (List Char))
      (intervals : List (List Char × ℚ)) (row : RawRow) (rest : List RawRow) (idx : ℕ),
      List.length row < 7 →
      pass2RawGo primary sd ed intervals (row :: rest) idx = .error ()) ∧
    (∀ (primary : List Char → Option (List Char)) (sd ed : Option (List Char))
      (intervals : List (List Char × ℚ)) (row : RawRow) (rest : List RawRow)
      (idx : ℕ) (sym : List Char),
      List.get? row 6 = some sym → hasDash sym = false →
      passesDateFilter sd ed (List.getD row 0 []) = true →
      primary (hour_key (List.getD row 0 [])) = some sym →
      (parseDecimal? (List.getD row 1 []) = none ∨
       parseDecimal? (List.getD row 2 []) = none ∨
       parseDecimal? (List.getD row 3 []) = none ∨
       parseDecimal? (List.getD row 4 []) = none) →
      pass2RawGo primary sd ed intervals (row :: rest) idx = .error ()) ∧
    (∀ (sd ed : Option (List Char)) (row : RawRow) (rest : List RawRow)
      (acc : List (List Char × List (List Char × ℚ))) (sym : List Char),
      List.get? row 6 = some sym → hasDash sym = false →
      passesDateFilter sd ed (List.getD row 0 []) = true →
      parseDecimal? (List.getD row 5 []) = none →
      pass1Go sd ed (row :: rest) acc = .error ()) ∧
    (∀ (log : Option (List Rollover)) (sa ea : Option (List Char)),
      main_stream none log sa ea = .error 1) ∧
    (∀ (rows : List RawRow) (sa ea : Option (List Char)),
      main_stream (some rows) none sa ea = .error 1) := by
  refine ⟨?_, ?_, ?_, ?_, ?_⟩
  · intro primary sd ed intervals row rest idx hlen
    have hnone : List.get? row 6 = none := List.get?_eq_none.mpr (by omega)
    simp only [List.get?_eq_getElem?] at hnone
    simp [pass2RawGo, hnone]
  · intro primary sd ed intervals row rest idx sym hsym hdash hdate hprim hbad
    simp only [List.get?_eq_getElem?] at hsym
    simp only [List.getD_eq_getElem?_getD] at hdate hprim hbad
    cases hq1 : parseDecimal? ((row[1]?).getD []) with
    | none => simp [pass2RawGo, hsym, hdash, hdate, hprim, hq1]
    | some v1 =>
      cases hq2 : parseDecimal? ((row[2]?).getD []) with
      | none => simp [pass2RawGo, hsym, hdash, hdate, hprim, hq1, hq2]
      | some v2 =>
        cases hq3 : parseDecimal? ((row[3]?).getD []) with
        | none => simp [pass2RawGo, hsym, hdash, hdate, hprim, hq1, hq2, hq3]
        | some v3 =>
          cases hq4 : parseDecimal? ((row[4]?).getD []) with
          | none => simp [pass2RawGo, hsym, hdash, hdate, hprim, hq1, hq2, hq3, hq4]
          | some v4 =>
            rcases hbad with h | h | h | h
            · rw [h] at hq1
              exact absurd hq1 (by simp)
            · rw [h] at hq2
              exact absurd hq2 (by simp)
            · rw [h] at hq3
              exact absurd hq3 (by simp)
            · rw [h] at hq4
              exact absurd hq4 (by simp)
  · intro sd ed row rest acc sym hsym hdash hdate hvol
    simp only [List.get?_eq_getElem?] at hsym
    simp only [List.getD_eq_getElem?_getD] at hdate hvol
    simp [pass1Go, hsym, hdash, hdate, hvol]
  · intro log sa ea
    rfl
  · intro rows sa ea
    rfl

/-- Witness for C7 (amended) at concrete failing inputs. -/
theorem C7_amended_witness :
    pass2RawGo (fun _ => none) none none [] [[str "short"]] 0 = .error () ∧
    pass2RawGo (fun _ => some (str "ESH5")) none none []
      [[str "2021-01-01T00:00:00.000000000Z", str "abc", str "1", str "1", str "1",
        str "5", str "ESH5"]] 0 = .error () ∧
    pass1Go none none
      [[str "2021-01-01T00:00:00.000000000Z", str "1", str "1", str "1", str "1",
        str "xyz", str "ESH5"]] [] = .error () ∧
    main_stream none (some []) none none = .error 1 ∧
    main_stream (some []) none none none = .error 1 := by
  refine ⟨?_, ?_, ?_, ?_, ?_⟩
  · exact C7_amended.1 (fun _ => none) none none [] [str "short"] [] 0 (by decide)
  · exact C7_amended.2.1 (fun _ => some (str "ESH5")) none none []
      [str "2021-01-01T00:00:00.000000000Z", str "abc", str "1", str "1", str "1",
        str "5", str "ESH5"] [] 0 (str "ESH5")
      (by decide) (by decide) (by decide) rfl (Or.inl (by decide))
  · exact C7_amended.2.2.1 none none
      [str "2021-01-01T00:00:00.000000000Z", str "1", str "1", str "1", str "1",
        str "xyz", str "ESH5"] [] [] (str "ESH5")
      (by decide) (by decide) (by decide) (by decide)
  · exact C7_amended.2.2.2.1 (some []) none none
  · exact C7_amended.2.2.2.2 [] none none
